import Mathlib

/-!
# The scull pipe driver (`pipe/pipep.c`): a shallow embedding

The driver keeps one `struct scull_pipe`: a circular byte buffer with a read
pointer `rp` and a write pointer `wp`, two open counts and a semaphore used as
a mutex.  The embedding below follows the C functions statement by statement.

Conventions of the embedding

* Pointers into the buffer (`rp`, `wp`, `end`) are byte offsets from
  `dev->buffer`; `dev->buffer` itself is `none` (NULL) or `some b`, the bytes of
  the allocated block.  Pointer comparisons and differences become comparisons
  and differences of offsets.
* `int` values are `Int`; a cast `(size_t)x` is `x mod 2^64`; the open counts
  `nreaders` and `nwriters`, which only ever grow or shrink by one, wrap around
  like C `int`s (`int_wrap`).
* A call runs with no other thread in between (sequential semantics).  A call
  that goes to sleep and can only be woken by another thread has the outcome
  `Ret.sleeps`; a pending signal (`sig = true`) wakes it with `-ERESTARTSYS`.
  The functions named `..._path` run the same code with other threads around
  and keep track of the lock; with no other thread they agree with the
  sequential functions (`scull_p_read_path_nil` and its siblings).
* `kmalloc`, `copy_to_user`, `copy_from_user` and the semaphore operations are
  kernel services; their outcome is fixed by explicit arguments (the block
  `kmalloc` hands out, the number of accessible user bytes, a pending signal).
-/

namespace Scull

/-! ## Kernel services -/

/-- Error numbers returned (negated) by the driver. -/
inductive Errno where
  | ERESTARTSYS
  | EAGAIN
  | EFAULT
  | ENOMEM
deriving DecidableEq, Repr

/-- Outcome of a call: a return value, a negative error number, or the caller
stays asleep (nobody is there to wake it up). -/
inductive Ret (α : Type) where
  | ok (v : α)
  | err (e : Errno)
  | sleeps
deriving DecidableEq, Repr

/-- Value of `FMODE_READ` in `linux/fs.h`. -/
def FMODE_READ : Nat := 1

/-- Value of `FMODE_WRITE` in `linux/fs.h`. -/
def FMODE_WRITE : Nat := 2

/-- Value of `O_NONBLOCK` (octal 04000). -/
def O_NONBLOCK : Nat := 2048

/-- Largest value of a C `int`. -/
def INT_MAX : Nat := 2147483647

/-- The fields of `struct file` the driver looks at. -/
structure file where
  f_mode : Nat
  f_flags : Nat
deriving DecidableEq, Repr

/-- The three access modes of a handle. -/
inductive Mode where
  | ReadOnly
  | WriteOnly
  | ReadWrite
deriving DecidableEq, Repr

/-- The `f_mode` bits of a handle opened in the given mode. -/
def Mode.f_mode : Mode → Nat
  | .ReadOnly => FMODE_READ
  | .WriteOnly => FMODE_WRITE
  | .ReadWrite => FMODE_READ ||| FMODE_WRITE

/-- The `struct file` of a handle opened in mode `m`, non-blocking or not. -/
def mkfile (m : Mode) (nonblock : Bool) : file :=
  { f_mode := m.f_mode, f_flags := if nonblock then O_NONBLOCK else 0 }

/-- A value brought back into the range of a C `int`: arithmetic on `int`
fields wraps around in two's complement (the kernel is built with
`-fno-strict-overflow`), so `INT_MAX + 1` is `INT_MIN`. -/
def int_wrap (x : Int) : Int := (x + 2147483648) % 4294967296 - 2147483648

/-- The cast `(size_t)x` of a signed value on a 64-bit kernel. -/
def size_t (x : Int) : Nat := (x % 2 ^ 64).toNat

/-- Result of trying to take the semaphore. -/
inductive Acquire where
  | acquired (sem : Nat)
  | interrupted
  | sleeps
deriving DecidableEq, Repr

/-- Semaphore `down_interruptible`: takes the semaphore when its count is
positive; otherwise the caller sleeps, and only a signal ends the sleep. -/
def down_interruptible (sem : Nat) (sig : Bool) : Acquire :=
  if 0 < sem then .acquired (sem - 1)
  else if sig then .interrupted
  else .sleeps

/-- Semaphore `down`: takes the semaphore when its count is positive; otherwise
the caller sleeps (signals do not wake it). -/
def down (sem : Nat) : Option Nat :=
  if 0 < sem then some (sem - 1) else none

/-- Kernel `copy_to_user(buf, src, n)`, with `ubuf` writable bytes at `buf`:
the bytes that reach user space and the number of bytes not copied. -/
def copy_to_user (ubuf : Nat) (src : List Nat) (n : Nat) : List Nat × Nat :=
  (src.take (min n ubuf), n - min n ubuf)

/-- Kernel `copy_from_user(dst + off, buf, n)`, with `buf` the readable user
bytes: the first `n` bytes of `buf` are stored at offset `off`, a short `buf` is
padded with zero bytes; returns the new block and the number of bytes not
copied. -/
def copy_from_user (dst : List Nat) (off : Nat) (buf : List Nat) (n : Nat) :
    List Nat × Nat :=
  (dst.take off ++ (buf.take n ++ List.replicate (n - buf.length) 0) ++ dst.drop (off + n),
   n - min n buf.length)

/-! ## The device -/

/-- The record `struct scull_pipe` (wait queues and `cdev` left out: they carry
no data of the pipe). -/
structure scull_pipe where
  buffer : Option (List Nat)
  end_ : Nat
  buffersize : Int
  nreaders : Int
  nwriters : Int
  rp : Nat
  wp : Nat
  sem : Nat
deriving DecidableEq, Repr

/-- Semaphore `up(&dev->sem)`. -/
def up (dev : scull_pipe) : scull_pipe := { dev with sem := dev.sem + 1 }

/-- The device as `scull_p_init` leaves it: all fields zero, semaphore count 1. -/
def scull_p_init : scull_pipe :=
  { buffer := none, end_ := 0, buffersize := 0, nreaders := 0, nwriters := 0,
    rp := 0, wp := 0, sem := 1 }

/-- Lines 48 to 64 of `scull_p_open`, reached once `dev->buffer` is not NULL:
the size, `end` and both cursors are set, the open counts (C `int`s) are
incremented by the mode bits, the semaphore is released; `nonseekable_open`
returns 0. -/
def scull_p_open_rest (scull_p_buffer : Nat) (dev : scull_pipe) (filp : file) :
    Ret Unit × scull_pipe :=
  let dev := { dev with buffersize := (scull_p_buffer : Int) }
  let dev := { dev with end_ := scull_p_buffer }
  let dev := { dev with rp := 0, wp := 0 }
  let dev := if filp.f_mode &&& FMODE_READ ≠ 0
    then { dev with nreaders := int_wrap (dev.nreaders + 1) } else dev
  let dev := if filp.f_mode &&& FMODE_WRITE ≠ 0
    then { dev with nwriters := int_wrap (dev.nwriters + 1) } else dev
  (.ok (), up dev)

/-- Function `scull_p_open`; `scull_p_buffer` is the global of that name (the
buffer size), `kmalloc` is what `kmalloc(scull_p_buffer, GFP_KERNEL)` returns
if it is called. -/
def scull_p_open (scull_p_buffer : Nat) (dev : scull_pipe) (filp : file)
    (kmalloc : Option (List Nat)) (sig : Bool) : Ret Unit × scull_pipe :=
  match down_interruptible dev.sem sig with
  | .interrupted => (.err .ERESTARTSYS, dev)
  | .sleeps => (.sleeps, dev)
  | .acquired s =>
    let dev := { dev with sem := s }
    if dev.buffer = none then
      let dev := { dev with buffer := kmalloc }
      if dev.buffer = none then (.err .ENOMEM, up dev)
      else scull_p_open_rest scull_p_buffer dev filp
    else scull_p_open_rest scull_p_buffer dev filp

/-- Function `scull_p_release`; the decrements and the sum
`dev->nreaders + dev->nwriters` are `int` arithmetic. -/
def scull_p_release (dev : scull_pipe) (filp : file) : Ret Unit × scull_pipe :=
  match down dev.sem with
  | none => (.sleeps, dev)
  | some s =>
    let dev := { dev with sem := s }
    let dev := if filp.f_mode = FMODE_READ
      then { dev with nreaders := int_wrap (dev.nreaders - 1) } else dev
    let dev := if filp.f_mode = FMODE_WRITE
      then { dev with nwriters := int_wrap (dev.nwriters - 1) } else dev
    let dev := if int_wrap (dev.nreaders + dev.nwriters) = 0
      then { dev with buffer := none } else dev
    (.ok (), up dev)

/-- Function `scull_p_read`; `ubuf` is the number of writable bytes at the user
address `buf`.  A successful call returns the count and the bytes copied out.
With the buffer empty the loop body releases the semaphore and, for a blocking
handle, waits for `rp != wp`: no other thread runs, so only a signal ends the
wait. -/
def scull_p_read (dev : scull_pipe) (filp : file) (ubuf : Nat) (count : Nat)
    (sig : Bool) : Ret (Nat × List Nat) × scull_pipe :=
  match down_interruptible dev.sem sig with
  | .interrupted => (.err .ERESTARTSYS, dev)
  | .sleeps => (.sleeps, dev)
  | .acquired s =>
    let dev := { dev with sem := s }
    if dev.rp = dev.wp then
      let dev := up dev
      if filp.f_flags &&& O_NONBLOCK ≠ 0 then (.err .EAGAIN, dev)
      else if sig then (.err .ERESTARTSYS, dev)
      else (.sleeps, dev)
    else
      let count :=
        if dev.wp > dev.rp then min count (size_t ((dev.wp : Int) - (dev.rp : Int)))
        else min count (size_t ((dev.end_ : Int) - (dev.rp : Int)))
      let (data, left) := copy_to_user ubuf ((dev.buffer.getD []).drop dev.rp) count
      if left ≠ 0 then (.err .EFAULT, up dev)
      else
        let dev := { dev with rp := dev.rp + count }
        let dev := if dev.rp = dev.end_ then { dev with rp := 0 } else dev
        (.ok (count, data), up dev)

/-- Function `spacefree`. -/
def spacefree (dev : scull_pipe) : Int :=
  if dev.rp = dev.wp then dev.buffersize - 1
  else Int.tmod ((dev.rp : Int) + dev.buffersize - (dev.wp : Int)) dev.buffersize - 1

/-- Function `scull_p_write`; `buf` holds the readable user bytes at the user
address.  With no space free the loop body releases the semaphore and, for a
blocking handle, evaluates `spacefree` again (same fields, still 0) and calls
`schedule()`: no other thread runs, so only a signal ends the sleep. -/
def scull_p_write (dev : scull_pipe) (filp : file) (buf : List Nat) (count : Nat)
    (sig : Bool) : Ret Nat × scull_pipe :=
  match down_interruptible dev.sem sig with
  | .interrupted => (.err .ERESTARTSYS, dev)
  | .sleeps => (.sleeps, dev)
  | .acquired s =>
    let dev := { dev with sem := s }
    if spacefree dev = 0 then
      let dev := up dev
      if filp.f_flags &&& O_NONBLOCK ≠ 0 then (.err .EAGAIN, dev)
      else if sig then (.err .ERESTARTSYS, dev)
      else (.sleeps, dev)
    else
      let count := min count (size_t (spacefree dev))
      let count :=
        if dev.wp ≥ dev.rp then min count (size_t ((dev.end_ : Int) - (dev.wp : Int)))
        else min count (size_t ((dev.rp : Int) - (dev.wp : Int) - 1))
      let (b, left) := copy_from_user (dev.buffer.getD []) dev.wp buf count
      let dev := { dev with buffer := dev.buffer.map (fun _ => b) }
      if left ≠ 0 then (.err .EFAULT, up dev)
      else
        let dev := { dev with wp := dev.wp + count }
        let dev := if dev.wp = dev.end_ then { dev with wp := 0 } else dev
        (.ok count, up dev)

/-! ## Notions used to state the properties -/

/-- The unread bytes of the pipe: the circular range of the buffer from `rp`
up to `wp`. -/
def unread (dev : scull_pipe) : List Nat :=
  let b := dev.buffer.getD []
  if dev.rp ≤ dev.wp then (b.drop dev.rp).take (dev.wp - dev.rp)
  else b.drop dev.rp ++ b.take dev.wp

/-- An open pipe of capacity `N` between two calls: the buffer is allocated
with `N` bytes, `buffersize` and `end` agree with it, both cursors are offsets
in `[0, N)`, and the semaphore is free. -/
def live (N : Nat) (dev : scull_pipe) : Prop :=
  dev.buffer.map List.length = some N ∧ dev.buffersize = (N : Int) ∧ dev.end_ = N ∧
    dev.rp < N ∧ dev.wp < N ∧ 0 < dev.sem

instance (N : Nat) (dev : scull_pipe) : Decidable (live N dev) := by
  unfold live; infer_instance

/-- Free bytes of a live device, as a natural number. -/
def sfree (N : Nat) (dev : scull_pipe) : Nat :=
  if dev.rp = dev.wp then N - 1
  else if dev.rp < dev.wp then dev.rp + N - dev.wp - 1 else dev.rp - dev.wp - 1

/-- Transfer length of a write on a live device. -/
def wlen (N : Nat) (dev : scull_pipe) (count : Nat) : Nat :=
  min (min count (sfree N dev)) (if dev.rp ≤ dev.wp then N - dev.wp else dev.rp - dev.wp - 1)

/-- Transfer length of a read on a live device. -/
def rlen (N : Nat) (dev : scull_pipe) (count : Nat) : Nat :=
  if dev.rp < dev.wp then min count (dev.wp - dev.rp) else min count (N - dev.rp)

/-- A transfer call with its arguments. -/
inductive Call where
  | read (filp : file) (ubuf count : Nat) (sig : Bool)
  | write (filp : file) (buf : List Nat) (count : Nat) (sig : Bool)

/-- The bytes a write call accepted: the first `k` bytes of its input when it
returned `k`, nothing otherwise. -/
def accepted (buf : List Nat) : Ret Nat → List Nat
  | .ok k => buf.take k
  | _ => []

/-- The bytes a read call handed to its caller. -/
def returned : Ret (Nat × List Nat) → List Nat
  | .ok (_, data) => data
  | _ => []

/-- A device together with everything written to and read from it so far. -/
structure History where
  dev : scull_pipe
  written : List Nat
  readback : List Nat

/-- One transfer call applied to a history. -/
def History.step (t : History) : Call → History
  | .read filp ubuf count sig =>
    let r := scull_p_read t.dev filp ubuf count sig
    { dev := r.2, written := t.written, readback := t.readback ++ returned r.1 }
  | .write filp buf count sig =>
    let r := scull_p_write t.dev filp buf count sig
    { dev := r.2, written := t.written ++ accepted buf r.1, readback := t.readback }

/-- A sequence of transfer calls, one after the other. -/
def History.run (t : History) (cs : List Call) : History := cs.foldl History.step t

/-- The history right after one successful open of a fresh device. -/
def History.opened (N : Nat) (filp : file) (mem : List Nat) (sig : Bool) : History :=
  { dev := (scull_p_open N scull_p_init filp (some mem) sig).2, written := [], readback := [] }

/-- An open or a close, with its arguments; `close i` closes the `i`-th handle
of the list of open handles. -/
inductive Op where
  | opens (m : Mode) (nonblock : Bool) (kmalloc : Option (List Nat)) (sig : Bool)
  | close (i : Nat)

/-- The device together with the handles that are open on it. -/
structure Sys where
  dev : scull_pipe
  handles : List file

/-- One open or close.  An open that fails creates no handle; closing a handle
that is not open is not a step of the system. -/
def Sys.step (N : Nat) (s : Sys) : Op → Sys
  | .opens m nonblock kmalloc sig =>
    match scull_p_open N s.dev (mkfile m nonblock) kmalloc sig with
    | (.ok _, dev) => { dev := dev, handles := mkfile m nonblock :: s.handles }
    | (_, dev) => { dev := dev, handles := s.handles }
  | .close i =>
    match s.handles[i]? with
    | none => s
    | some h =>
      match scull_p_release s.dev h with
      | (.ok _, dev) => { dev := dev, handles := s.handles.eraseIdx i }
      | (_, dev) => { dev := dev, handles := s.handles }

/-- A sequence of opens and closes from the initial device. -/
def Sys.run (N : Nat) (ops : List Op) : Sys :=
  ops.foldl (Sys.step N) { dev := scull_p_init, handles := [] }

/-! ## Closed forms, invariants and concrete states used in the proofs -/

/-- The invariant of a history: the device is live and what was written is
what was read back followed by the unread bytes. -/
def History.inv (N : Nat) (t : History) : Prop :=
  live N t.dev ∧ t.written = t.readback ++ unread t.dev

/-- The device after a successful open that finds or obtains the block `b`. -/
def opened_dev (N : Nat) (dev : scull_pipe) (filp : file) (b : List Nat) : scull_pipe :=
  { dev with
    buffer := some b, buffersize := (N : Int), end_ := N, rp := 0, wp := 0,
    nreaders :=
      if filp.f_mode &&& FMODE_READ ≠ 0 then int_wrap (dev.nreaders + 1) else dev.nreaders,
    nwriters :=
      if filp.f_mode &&& FMODE_WRITE ≠ 0 then int_wrap (dev.nwriters + 1) else dev.nwriters }

/-- A freshly opened pipe of capacity 4 (read-write, blocking handle). -/
def fresh4 : scull_pipe :=
  (scull_p_open 4 scull_p_init (mkfile .ReadWrite false) (some [0, 0, 0, 0]) false).2

/-- The pipe `fresh4` after the bytes "ab" were written to it. -/
def fresh4_ab : scull_pipe :=
  (scull_p_write fresh4 (mkfile .ReadWrite false) [97, 98] 2 false).2

/-- The pipe `fresh4_ab` after a `read(3)`. -/
def fresh4_ab_read : scull_pipe :=
  (scull_p_read fresh4_ab (mkfile .ReadWrite false) 3 3 false).2

/-- 1 when the handle counts as a reader at open, else 0. -/
def rbit (h : file) : Nat := if h.f_mode &&& FMODE_READ ≠ 0 then 1 else 0

/-- 1 when the handle counts as a writer at open, else 0. -/
def wbit (h : file) : Nat := if h.f_mode &&& FMODE_WRITE ≠ 0 then 1 else 0

/-- The device after a release that got the semaphore. -/
def released_dev (dev : scull_pipe) (filp : file) : scull_pipe :=
  { dev with
    nreaders :=
      if filp.f_mode = FMODE_READ then int_wrap (dev.nreaders - 1) else dev.nreaders,
    nwriters :=
      if filp.f_mode = FMODE_WRITE then int_wrap (dev.nwriters - 1) else dev.nwriters,
    buffer :=
      if int_wrap
          ((if filp.f_mode = FMODE_READ then int_wrap (dev.nreaders - 1) else dev.nreaders) +
            (if filp.f_mode = FMODE_WRITE then int_wrap (dev.nwriters - 1) else dev.nwriters))
          = 0
      then none else dev.buffer }

/-- The invariant of the open/close system: the semaphore is free, every open
handle counts as a reader or a writer, the counts cover the open handles, and
the buffer is allocated while a count is positive. -/
def Sys.inv (s : Sys) : Prop :=
  0 < s.dev.sem ∧ (∀ h ∈ s.handles, 0 < rbit h + wbit h) ∧
  (((s.handles.map rbit).sum : Nat) : Int) ≤ s.dev.nreaders ∧
  (((s.handles.map wbit).sum : Nat) : Int) ≤ s.dev.nwriters ∧
  (0 < s.dev.nreaders + s.dev.nwriters → s.dev.buffer ≠ none)

/-- The capacity-4 pipe after "abcd" was offered to the fresh pipe: three bytes
are buffered and no space is free. -/
def fresh4_full : scull_pipe :=
  (scull_p_write fresh4 (mkfile .ReadWrite false) [97, 98, 99, 100] 4 false).2

/-- A sequence of calls on a capacity-4 pipe that wraps both cursors. -/
def calls4 : List Call :=
  [ .write (mkfile .WriteOnly false) [97, 98, 99] 3 false,
    .read (mkfile .ReadOnly false) 2 2 false,
    .write (mkfile .WriteOnly false) [100, 101] 2 false,
    .write (mkfile .WriteOnly false) [101] 1 false,
    .read (mkfile .ReadOnly false) 4 4 false,
    .read (mkfile .ReadOnly true) 4 4 false,
    .read (mkfile .ReadOnly true) 4 4 false ]

/-- Offset `i` lies in the unread range of the buffer: the circular range from
`rp` up to `wp`. -/
def in_unread (dev : scull_pipe) (i : Nat) : Prop :=
  if dev.rp ≤ dev.wp then dev.rp ≤ i ∧ i < dev.wp else dev.rp ≤ i ∨ i < dev.wp

instance (dev : scull_pipe) (i : Nat) : Decidable (in_unread dev i) := by
  unfold in_unread; infer_instance

/-- The second half of the buffer/count invariant: an allocated buffer comes
with a positive count. -/
def Sys.counted (s : Sys) : Prop :=
  s.dev.buffer ≠ none → 0 < s.dev.nreaders + s.dev.nwriters

/-- A read-write open (blocking handle) on the capacity-4 device. -/
def rw_open : Op := .opens .ReadWrite false (some [0, 0, 0, 0]) false

/-- The pair "read-write open, close of that handle", `n` times. -/
def rw_pairs : Nat → List Op
  | 0 => []
  | n + 1 => rw_open :: .close 0 :: rw_pairs n

/-- The capacity-4 device with the buffer allocated, both cursors at 0, both
counts equal to `c`, and the handles `hs` open. -/
def pair_state (hs : List file) (c : Int) : Sys :=
  { dev := { buffer := some [0, 0, 0, 0], end_ := 4, buffersize := 4, nreaders := c,
             nwriters := c, rp := 0, wp := 0, sem := 1 },
    handles := hs }

/-- The failing input of C10: a read-write open whose handle stays open, then
2147483646 times "read-write open, close of that handle", then one more such
pair: `2^31` read-write opens in all, one handle open at the end. -/
def ops_early_free : List Op :=
  rw_open :: (rw_pairs 2147483646 ++ [rw_open, .close 0])

/-- The failing input of C15: 2147483647 times "read-write open, close of that
handle", then one more read-write open: `2^31` read-write opens in all. -/
def ops_negative : List Op :=
  rw_open :: .close 0 :: (rw_pairs 2147483646 ++ [rw_open])

/-- The buffer/count invariant with a bound: `Sys.inv`, `Sys.counted`, and the
two counts add up to at most `2 * k`. -/
def Sys.sound (k : Nat) (s : Sys) : Prop :=
  s.inv ∧ s.counted ∧ s.dev.nreaders + s.dev.nwriters ≤ 2 * (k : Int)

/-- The pipe `fresh4` while another call holds the semaphore. -/
def fresh4_held : scull_pipe := { fresh4 with sem := 0 }

/-- The full pipe `fresh4_full` while another call holds the semaphore. -/
def fresh4_full_held : scull_pipe := { fresh4_full with sem := 0 }

/-! ## The calls with other threads around: lock state and cursor reads
The functions above run a call with no other thread.  The functions below run
the same code with other threads present, under non-preemptive scheduling: the
other threads run exactly while the caller sleeps (in `down_interruptible`,
`down`, `wait_event_interruptible` or `schedule`).  Each sleep takes one `Turn`
from a list: what the others do to the device, and whether a signal is pending
for the caller when it wakes up.  A caller asleep with no turn left stays
asleep (`Ret.sleeps`).  The configuration records whether the caller holds the
semaphore and, for every read of `rp` or `wp`, whether it held it then. -/

/-- The places where `scull_p_read` and `scull_p_write` read `rp` or `wp`. -/
inductive Site where
  /-- the `while` condition (lines 100 and 161) -/
  | loop_test
  /-- the condition checked around the sleep (lines 109 and 174) -/
  | wait_test
  /-- the computation of the transfer length (lines 117-120 and 188-192) -/
  | length
  /-- the copy from or to the buffer (lines 123 and 194) -/
  | copy
  /-- the update of the cursor (lines 129-132 and 199-201) -/
  | advance
deriving DecidableEq, Repr

/-- One sleep of the caller: what the other threads do to the device meanwhile,
and whether a signal has arrived for the caller when it wakes up. -/
structure Turn where
  others : scull_pipe → scull_pipe
  intr : Bool

/-- The caller in the middle of a call: the device, whether the caller holds
the semaphore, whether a signal is pending for it, the turns to come, and the
cursor reads made so far, each with the lock state at that moment. -/
structure Cfg where
  dev : scull_pipe
  held : Bool
  pending : Bool
  env : List Turn
  reads : List (Site × Bool)

/-- How a call ends: its outcome and the final configuration. -/
structure Exit (α : Type) where
  ret : Ret α
  cfg : Cfg

/-- Semaphore `up(&dev->sem)` by the caller. -/
def Cfg.up (c : Cfg) : Cfg := { c with dev := Scull.up c.dev, held := false }

/-- The caller reads `rp` or `wp` at the given place. -/
def Cfg.look (c : Cfg) (site : Site) : Cfg :=
  { c with reads := c.reads ++ [(site, c.held)] }

/-- Outcome of an attempt to take the semaphore. -/
inductive Acq where
  | acquired (c : Cfg)
  | interrupted (c : Cfg)
  | sleeps (c : Cfg)

/-- Semaphore `down_interruptible` with other threads: the semaphore is taken
when its count is positive; otherwise a pending signal ends the attempt, and
without one the caller sleeps for a turn and tries again. -/
def down_interruptible_env : List Turn → Cfg → Acq
  | env, c =>
    if 0 < c.dev.sem then
      .acquired { c with dev := { c.dev with sem := c.dev.sem - 1 }, held := true, env := env }
    else if c.pending then .interrupted { c with env := env }
    else
      match env with
      | [] => .sleeps { c with env := [] }
      | t :: env =>
        down_interruptible_env env
          { c with dev := t.others c.dev, pending := c.pending || t.intr }

/-- Outcome of an attempt to take the semaphore that signals cannot end. -/
inductive Got where
  | acquired (c : Cfg)
  | sleeps (c : Cfg)

/-- Semaphore `down` with other threads: as `down_interruptible_env`, but
signals do not end the attempt. -/
def down_env : List Turn → Cfg → Got
  | env, c =>
    if 0 < c.dev.sem then
      .acquired { c with dev := { c.dev with sem := c.dev.sem - 1 }, held := true, env := env }
    else
      match env with
      | [] => .sleeps { c with env := [] }
      | t :: env =>
        down_env env { c with dev := t.others c.dev, pending := c.pending || t.intr }

/-- Outcome of a sleep that waits for an event. -/
inductive Wait where
  | woken (c : Cfg)
  | interrupted (c : Cfg)
  | sleeps (c : Cfg)

/-- Kernel `wait_event_interruptible(dev->inq, dev->rp != dev->wp)`: the
condition is evaluated; when it is false a pending signal ends the wait, and
without one the caller sleeps for a turn and evaluates the condition again. -/
def wait_event_interruptible_env : List Turn → Cfg → Wait
  | env, c =>
    let c := c.look .wait_test
    if c.dev.rp ≠ c.dev.wp then .woken { c with env := env }
    else if c.pending then .interrupted { c with env := env }
    else
      match env with
      | [] => .sleeps { c with env := [] }
      | t :: env =>
        wait_event_interruptible_env env
          { c with dev := t.others c.dev, pending := c.pending || t.intr }

/-- Kernel `schedule()` in state `TASK_INTERRUPTIBLE`: with a signal pending it
returns at once; otherwise the caller sleeps for one turn. -/
def schedule_env (c : Cfg) : Option Cfg :=
  if c.pending then some c
  else
    match c.env with
    | [] => none
    | t :: env =>
      some { c with dev := t.others c.dev, pending := c.pending || t.intr, env := env }

/-- Result of a wait loop: the call is over, or the loop was left with the
semaphore held. -/
inductive LoopOut (α : Type) where
  | out (e : Exit α)
  | go (c : Cfg)

/-- The loop of `scull_p_read` (lines 100 to 114), entered with the semaphore
held; the first argument bounds the number of iterations. -/
def scull_p_read_loop (filp : file) : Nat → Cfg → Option (LoopOut (Nat × List Nat))
  | 0, _ => none
  | fuel + 1, c =>
    let c := c.look .loop_test
    if c.dev.rp = c.dev.wp then
      let c := c.up
      if filp.f_flags &&& O_NONBLOCK ≠ 0 then some (.out ⟨.err .EAGAIN, c⟩)
      else
        match wait_event_interruptible_env c.env c with
        | .interrupted c => some (.out ⟨.err .ERESTARTSYS, c⟩)
        | .sleeps c => some (.out ⟨.sleeps, c⟩)
        | .woken c =>
          match down_interruptible_env c.env c with
          | .interrupted c => some (.out ⟨.err .ERESTARTSYS, c⟩)
          | .sleeps c => some (.out ⟨.sleeps, c⟩)
          | .acquired c => scull_p_read_loop filp fuel c
    else some (.go c)

/-- Function `scull_p_read` with other threads: `env` are the turns to come,
`sig` says whether a signal is pending at entry. -/
def scull_p_read_path (env : List Turn) (sig : Bool) (dev : scull_pipe) (filp : file)
    (ubuf : Nat) (count : Nat) : Option (Exit (Nat × List Nat)) :=
  let c : Cfg := { dev := dev, held := false, pending := sig, env := env, reads := [] }
  match down_interruptible_env c.env c with
  | .interrupted c => some ⟨.err .ERESTARTSYS, c⟩
  | .sleeps c => some ⟨.sleeps, c⟩
  | .acquired c =>
    match scull_p_read_loop filp (env.length + 1) c with
    | none => none
    | some (.out e) => some e
    | some (.go c) =>
      let c := c.look .length
      let count :=
        if c.dev.wp > c.dev.rp then min count (size_t ((c.dev.wp : Int) - (c.dev.rp : Int)))
        else min count (size_t ((c.dev.end_ : Int) - (c.dev.rp : Int)))
      let c := c.look .copy
      let (data, left) := copy_to_user ubuf ((c.dev.buffer.getD []).drop c.dev.rp) count
      if left ≠ 0 then some ⟨.err .EFAULT, c.up⟩
      else
        let c := c.look .advance
        let c := { c with dev := { c.dev with rp := c.dev.rp + count } }
        let c := if c.dev.rp = c.dev.end_ then { c with dev := { c.dev with rp := 0 } } else c
        some ⟨.ok (count, data), c.up⟩

/-- The loop of `scull_p_write` (lines 161 to 185), entered with the semaphore
held; the first argument bounds the number of iterations. -/
def scull_p_write_loop (filp : file) : Nat → Cfg → Option (LoopOut Nat)
  | 0, _ => none
  | fuel + 1, c =>
    let c := c.look .loop_test
    if spacefree c.dev = 0 then
      let c := c.up
      if filp.f_flags &&& O_NONBLOCK ≠ 0 then some (.out ⟨.err .EAGAIN, c⟩)
      else
        -- prepare_to_wait; if (spacefree(dev) == 0) schedule();
        let c := c.look .wait_test
        match (if spacefree c.dev = 0 then schedule_env c else some c) with
        | none => some (.out ⟨.sleeps, c⟩)
        | some c =>
          -- finish_wait; if (signal_pending(current)) return -ERESTARTSYS;
          if c.pending then some (.out ⟨.err .ERESTARTSYS, c⟩)
          else
            match down_interruptible_env c.env c with
            | .interrupted c => some (.out ⟨.err .ERESTARTSYS, c⟩)
            | .sleeps c => some (.out ⟨.sleeps, c⟩)
            | .acquired c => scull_p_write_loop filp fuel c
    else some (.go c)

/-- Function `scull_p_write` with other threads. -/
def scull_p_write_path (env : List Turn) (sig : Bool) (dev : scull_pipe) (filp : file)
    (buf : List Nat) (count : Nat) : Option (Exit Nat) :=
  let c : Cfg := { dev := dev, held := false, pending := sig, env := env, reads := [] }
  match down_interruptible_env c.env c with
  | .interrupted c => some ⟨.err .ERESTARTSYS, c⟩
  | .sleeps c => some ⟨.sleeps, c⟩
  | .acquired c =>
    match scull_p_write_loop filp (env.length + 1) c with
    | none => none
    | some (.out e) => some e
    | some (.go c) =>
      let c := c.look .length
      let count := min count (size_t (spacefree c.dev))
      let count :=
        if c.dev.wp ≥ c.dev.rp then min count (size_t ((c.dev.end_ : Int) - (c.dev.wp : Int)))
        else min count (size_t ((c.dev.rp : Int) - (c.dev.wp : Int) - 1))
      let c := c.look .copy
      let (b, left) := copy_from_user (c.dev.buffer.getD []) c.dev.wp buf count
      let c := { c with dev := { c.dev with buffer := c.dev.buffer.map (fun _ => b) } }
      if left ≠ 0 then some ⟨.err .EFAULT, c.up⟩
      else
        let c := c.look .advance
        let c := { c with dev := { c.dev with wp := c.dev.wp + count } }
        let c := if c.dev.wp = c.dev.end_ then { c with dev := { c.dev with wp := 0 } } else c
        some ⟨.ok count, c.up⟩

/-- Lines 48 to 64 of `scull_p_open` with other threads. -/
def scull_p_open_rest_path (scull_p_buffer : Nat) (c : Cfg) (filp : file) : Exit Unit :=
  let c := { c with dev := { c.dev with buffersize := (scull_p_buffer : Int) } }
  let c := { c with dev := { c.dev with end_ := scull_p_buffer } }
  let c := { c with dev := { c.dev with rp := 0, wp := 0 } }
  let c := if filp.f_mode &&& FMODE_READ ≠ 0
    then { c with dev := { c.dev with nreaders := int_wrap (c.dev.nreaders + 1) } } else c
  let c := if filp.f_mode &&& FMODE_WRITE ≠ 0
    then { c with dev := { c.dev with nwriters := int_wrap (c.dev.nwriters + 1) } } else c
  ⟨.ok (), c.up⟩

/-- Function `scull_p_open` with other threads. -/
def scull_p_open_path (scull_p_buffer : Nat) (env : List Turn) (sig : Bool)
    (dev : scull_pipe) (filp : file) (kmalloc : Option (List Nat)) : Exit Unit :=
  let c : Cfg := { dev := dev, held := false, pending := sig, env := env, reads := [] }
  match down_interruptible_env c.env c with
  | .interrupted c => ⟨.err .ERESTARTSYS, c⟩
  | .sleeps c => ⟨.sleeps, c⟩
  | .acquired c =>
    if c.dev.buffer = none then
      let c := { c with dev := { c.dev with buffer := kmalloc } }
      if c.dev.buffer = none then ⟨.err .ENOMEM, c.up⟩
      else scull_p_open_rest_path scull_p_buffer c filp
    else scull_p_open_rest_path scull_p_buffer c filp

/-- Function `scull_p_release` with other threads. -/
def scull_p_release_path (env : List Turn) (sig : Bool) (dev : scull_pipe) (filp : file) :
    Exit Unit :=
  let c : Cfg := { dev := dev, held := false, pending := sig, env := env, reads := [] }
  match down_env c.env c with
  | .sleeps c => ⟨.sleeps, c⟩
  | .acquired c =>
    let c := if filp.f_mode = FMODE_READ
      then { c with dev := { c.dev with nreaders := int_wrap (c.dev.nreaders - 1) } } else c
    let c := if filp.f_mode = FMODE_WRITE
      then { c with dev := { c.dev with nwriters := int_wrap (c.dev.nwriters - 1) } } else c
    let c := if int_wrap (c.dev.nreaders + c.dev.nwriters) = 0
      then { c with dev := { c.dev with buffer := none } } else c
    ⟨.ok (), c.up⟩

/-- The other threads leave the semaphore count as they found it: each of them
releases the semaphore before the caller runs again. -/
def SemPres (env : List Turn) : Prop :=
  ∀ t ∈ env, ∀ d : scull_pipe, (t.others d).sem = d.sem

/-- Every logged read was made with the semaphore held, except the reads of the
wait condition, which were made without it. -/
def ReadsOk (reads : List (Site × Bool)) : Prop :=
  ∀ r ∈ reads, (r.2 = true ↔ r.1 ≠ Site.wait_test)

/-- Two turns of other threads: in the first a writer stores one byte and is
still holding the semaphore when the caller wakes up; in the second nothing
changes and a signal arrives for the caller. -/
def turns_contended : List Turn :=
  [ { others := fun d => { d with wp := 1, sem := 0 }, intr := false },
    { others := fun d => d, intr := true } ]

/-- One turn in which nothing changes and a signal arrives for the caller. -/
def turns_signal : List Turn :=
  [ { others := fun d => d, intr := true } ]

/-! ## Lemmas and theorems -/

theorem size_t_of_nat (n : Nat) (h : n < 2 ^ 64) : size_t (n : Int) = n := by
  unfold size_t
  have h1 : ((n : Int)) % 2 ^ 64 = n := Int.emod_eq_of_lt (by omega) (by exact_mod_cast h)
  rw [h1]; simp

theorem spacefree_live (N : Nat) (dev : scull_pipe) (hl : live N dev) :
    spacefree dev = (sfree N dev : Int) := by
  obtain ⟨-, hbs, -, hr, hw, -⟩ := hl
  unfold spacefree sfree
  rw [hbs]
  split_ifs with h1 h2
  · omega
  · rw [Int.tmod_eq_emod (by omega) (by omega)]
    rw [Int.emod_eq_of_lt (by omega) (by omega)]
    omega
  · rw [Int.tmod_eq_emod (by omega) (by omega)]
    have : (dev.rp : Int) + N - dev.wp = (dev.rp - dev.wp) + N := by ring
    rw [this, Int.add_emod_self, Int.emod_eq_of_lt (by omega) (by omega)]
    omega

theorem sem_restore (dev : scull_pipe) (h : 0 < dev.sem) :
    up { dev with sem := dev.sem - 1 } = dev := by
  cases dev
  simp only [up, scull_pipe.mk.injEq, true_and]
  simp only at h
  omega

theorem scull_p_write_live (N : Nat) (hN : N ≤ INT_MAX) (dev : scull_pipe) (hl : live N dev)
    (filp : file) (buf : List Nat) (count : Nat) (sig : Bool) :
    scull_p_write dev filp buf count sig =
      if sfree N dev = 0 then
        (if filp.f_flags &&& O_NONBLOCK ≠ 0 then (.err .EAGAIN, dev)
         else if sig then (.err .ERESTARTSYS, dev) else (.sleeps, dev))
      else if buf.length < wlen N dev count then
        (.err .EFAULT,
          { dev with buffer := some (copy_from_user (dev.buffer.getD []) dev.wp buf (wlen N dev count)).1 })
      else
        (.ok (wlen N dev count),
          { dev with
            buffer := some (copy_from_user (dev.buffer.getD []) dev.wp buf (wlen N dev count)).1,
            wp := if dev.wp + wlen N dev count = N then 0 else dev.wp + wlen N dev count }) := by
  have hsf := spacefree_live N dev hl
  obtain ⟨hb, hbs, he, hr, hw, hs⟩ := hl
  have hsf' : spacefree { dev with sem := dev.sem - 1 } = (sfree N dev : Int) := hsf
  have hsfN : sfree N dev < N := by unfold sfree; split_ifs <;> omega
  have hI : INT_MAX = 2147483647 := rfl
  obtain ⟨b, hb1, hb2⟩ : ∃ b, dev.buffer = some b ∧ b.length = N := by
    cases hbuf : dev.buffer with
    | none => simp [hbuf] at hb
    | some b => exact ⟨b, rfl, by simpa [hbuf] using hb⟩
  unfold scull_p_write
  simp only [down_interruptible, hs, if_true]
  simp only [hsf']
  by_cases h0 : sfree N dev = 0
  · simp only [h0, Nat.cast_zero, if_true, sem_restore dev hs]
  · have h0' : ¬ ((sfree N dev : Int) = 0) := by exact_mod_cast h0
    simp only [h0', h0, if_false]
    have hst : size_t (sfree N dev : Int) = sfree N dev := size_t_of_nat _ (by omega)
    have hk : (if dev.wp ≥ dev.rp
        then min (min count (size_t (sfree N dev : Int))) (size_t ((dev.end_ : Int) - (dev.wp : Int)))
        else min (min count (size_t (sfree N dev : Int))) (size_t ((dev.rp : Int) - (dev.wp : Int) - 1)))
        = wlen N dev count := by
      unfold wlen
      rw [hst, he]
      split_ifs with h1
      · have : ((N : Int) - (dev.wp : Int)) = ((N - dev.wp : Nat) : Int) := by omega
        rw [this, size_t_of_nat _ (by omega)]
      · have : ((dev.rp : Int) - (dev.wp : Int) - 1) = ((dev.rp - dev.wp - 1 : Nat) : Int) := by omega
        rw [this, size_t_of_nat _ (by omega)]
    simp only [hk]
    have hs1 : dev.sem - 1 + 1 = dev.sem := by omega
    have hleft : (copy_from_user (dev.buffer.getD []) dev.wp buf (wlen N dev count)).2 ≠ 0 ↔
        buf.length < wlen N dev count := by
      simp only [copy_from_user]; omega
    by_cases hf : buf.length < wlen N dev count
    · rw [if_pos (hleft.mpr hf), if_pos hf]
      simp only [up, hb1, Option.map_some', hs1]
    · rw [if_neg (mt hleft.mp hf), if_neg hf]
      simp only [he]
      split_ifs <;> simp only [up, hb1, Option.map_some', hs1]

theorem scull_p_read_live (N : Nat) (hN : N ≤ INT_MAX) (dev : scull_pipe) (hl : live N dev)
    (filp : file) (ubuf count : Nat) (sig : Bool) :
    scull_p_read dev filp ubuf count sig =
      if dev.rp = dev.wp then
        (if filp.f_flags &&& O_NONBLOCK ≠ 0 then (.err .EAGAIN, dev)
         else if sig then (.err .ERESTARTSYS, dev) else (.sleeps, dev))
      else if ubuf < rlen N dev count then (.err .EFAULT, dev)
      else
        (.ok (rlen N dev count, ((dev.buffer.getD []).drop dev.rp).take (rlen N dev count)),
          { dev with
            rp := if dev.rp + rlen N dev count = N then 0 else dev.rp + rlen N dev count }) := by
  obtain ⟨hb, hbs, he, hr, hw, hs⟩ := hl
  have hI : INT_MAX = 2147483647 := rfl
  have hs1 : dev.sem - 1 + 1 = dev.sem := by omega
  unfold scull_p_read
  simp only [down_interruptible, hs, if_true]
  by_cases h0 : dev.rp = dev.wp
  · rw [if_pos h0, if_pos h0]
    simp only [up, hs1]
  · simp only [h0, if_false]
    have hk : (if dev.wp > dev.rp then min count (size_t ((dev.wp : Int) - (dev.rp : Int)))
        else min count (size_t ((dev.end_ : Int) - (dev.rp : Int)))) = rlen N dev count := by
      unfold rlen
      rw [he]
      split_ifs with h1
      · have : ((dev.wp : Int) - (dev.rp : Int)) = ((dev.wp - dev.rp : Nat) : Int) := by omega
        rw [this, size_t_of_nat _ (by omega)]
      · have : ((N : Int) - (dev.rp : Int)) = ((N - dev.rp : Nat) : Int) := by omega
        rw [this, size_t_of_nat _ (by omega)]
    simp only [hk, copy_to_user]
    have hleft : rlen N dev count - min (rlen N dev count) ubuf ≠ 0 ↔ ubuf < rlen N dev count := by
      omega
    by_cases hf : ubuf < rlen N dev count
    · rw [if_pos (hleft.mpr hf), if_pos hf]
      simp only [up, hs1]
    · rw [if_neg (mt hleft.mp hf), if_neg hf]
      have hm : min (rlen N dev count) ubuf = rlen N dev count := by omega
      simp only [he, hm]
      split_ifs <;> simp only [up, hs1]

theorem store_getElem? (b s : List Nat) (off i : Nat) (h : off + s.length ≤ b.length) :
    (b.take off ++ s ++ b.drop (off + s.length))[i]? =
      if i < off then b[i]? else if i < off + s.length then s[i - off]? else b[i]? := by
  have h1 : (b.take off).length = off := by simp; omega
  simp only [List.getElem?_append, List.length_append, h1, List.getElem?_take, List.getElem?_drop]
  split_ifs <;> first | rfl | omega | (congr 1; omega)

theorem store_length (b s : List Nat) (off : Nat) (h : off + s.length ≤ b.length) :
    (b.take off ++ s ++ b.drop (off + s.length)).length = b.length := by
  simp; omega

theorem unread_store_same (rp wp : Nat) (b s : List Nat)
    (hr : rp < b.length) (hw : wp < b.length)
    (h2 : s.length ≤ if rp ≤ wp then b.length - wp else rp - wp - 1) :
    let b' := b.take wp ++ s ++ b.drop (wp + s.length)
    (if rp ≤ wp then (b'.drop rp).take (wp - rp) else b'.drop rp ++ b'.take wp) =
    (if rp ≤ wp then (b.drop rp).take (wp - rp) else b.drop rp ++ b.take wp) := by
  intro b'
  have hoff : wp + s.length ≤ b.length := by split_ifs at h2 <;> omega
  have hlen : b'.length = b.length := store_length b s wp hoff
  have hget : ∀ i, b'[i]? = if i < wp then b[i]? else if i < wp + s.length then s[i - wp]? else b[i]? :=
    fun i => store_getElem? b s wp i hoff
  apply List.ext_getElem?
  intro i
  by_cases hc : rp ≤ wp
  · simp only [hc, if_true, List.getElem?_take, List.getElem?_drop, hget]
    split_ifs <;> first | rfl | omega
  · simp only [hc, if_false] at h2 ⊢
    simp only [List.getElem?_append, List.length_drop, hlen, List.getElem?_take, List.getElem?_drop, hget]
    split_ifs <;> first | rfl | omega

theorem unread_store_adv (rp wp : Nat) (b s : List Nat)
    (hr : rp < b.length) (hw : wp < b.length)
    (h1 : s.length ≤ if rp = wp then b.length - 1
      else if rp < wp then rp + b.length - wp - 1 else rp - wp - 1)
    (h2 : s.length ≤ if rp ≤ wp then b.length - wp else rp - wp - 1) :
    let b' := b.take wp ++ s ++ b.drop (wp + s.length)
    let wp' := if wp + s.length = b.length then 0 else wp + s.length
    (if rp ≤ wp' then (b'.drop rp).take (wp' - rp) else b'.drop rp ++ b'.take wp') =
    (if rp ≤ wp then (b.drop rp).take (wp - rp) else b.drop rp ++ b.take wp) ++ s := by
  intro b' wp'
  have hoff : wp + s.length ≤ b.length := by split_ifs at h2 <;> omega
  have hlen : b'.length = b.length := store_length b s wp hoff
  have hget : ∀ i, b'[i]? = if i < wp then b[i]? else if i < wp + s.length then s[i - wp]? else b[i]? :=
    fun i => store_getElem? b s wp i hoff
  apply List.ext_getElem?
  intro i
  by_cases hc : rp ≤ wp
  · simp only [hc, if_true] at h2 ⊢
    by_cases hwrap : wp + s.length = b.length
    · have hrp : ¬ rp ≤ 0 := by split_ifs at h1 <;> omega
      simp only [wp', hwrap, if_true, hrp, if_false, List.take_zero, List.append_nil,
        List.getElem?_append, List.length_take, List.length_drop, List.getElem?_take,
        List.getElem?_drop, hget]
      split_ifs <;> first | rfl | omega | (congr 1; omega) | (rw [List.getElem?_eq_none (by omega), List.getElem?_eq_none (by omega)])
    · have hrp : rp ≤ wp + s.length := by omega
      simp only [wp', hwrap, if_false, hrp, if_true,
        List.getElem?_append, List.length_take, List.length_drop, List.getElem?_take,
        List.getElem?_drop, hget]
      split_ifs <;> first | rfl | omega | (congr 1; omega) | (rw [List.getElem?_eq_none]; omega)
  · simp only [hc, if_false] at h2 ⊢
    have hne : rp ≠ wp := by omega
    have hnw : ¬ wp + s.length = b.length := by omega
    have hrp : ¬ rp ≤ wp + s.length := by omega
    simp only [wp', hnw, if_false, hrp,
        List.getElem?_append, List.length_append, List.length_take, List.length_drop, hlen,
        List.getElem?_take, List.getElem?_drop, hget]
    split_ifs <;> first | rfl | omega | (congr 1; omega) | (rw [List.getElem?_eq_none]; omega)

theorem unread_take (rp wp k : Nat) (b : List Nat)
    (hr : rp < b.length) (hw : wp < b.length) (hne : rp ≠ wp)
    (hk : k ≤ if rp < wp then wp - rp else b.length - rp) :
    let rp' := if rp + k = b.length then 0 else rp + k
    (if rp ≤ wp then (b.drop rp).take (wp - rp) else b.drop rp ++ b.take wp) =
      (b.drop rp).take k ++
        (if rp' ≤ wp then (b.drop rp').take (wp - rp') else b.drop rp' ++ b.take wp) := by
  intro rp'
  apply List.ext_getElem?
  intro i
  by_cases hc : rp < wp
  · simp only [hc, if_true] at hk
    have h1 : rp ≤ wp := by omega
    have h2 : ¬ rp + k = b.length := by omega
    have h3 : rp + k ≤ wp := by omega
    simp only [rp', h1, h2, h3, if_true, if_false, List.getElem?_append, List.length_take,
      List.length_drop, List.getElem?_take, List.getElem?_drop]
    split_ifs <;> first | rfl | omega | (congr 1; omega)
  · simp only [hc, if_false] at hk
    have h1 : ¬ rp ≤ wp := by omega
    by_cases hwrap : rp + k = b.length
    · simp only [rp', h1, hwrap, if_true, if_false, Nat.zero_le, List.drop_zero, Nat.sub_zero,
        List.getElem?_append, List.length_take,
        List.length_drop, List.getElem?_take, List.getElem?_drop]
      split_ifs <;> first | rfl | omega | (congr 1; omega)
    · have h3 : ¬ rp + k ≤ wp := by omega
      simp only [rp', h1, hwrap, h3, if_false, List.getElem?_append, List.length_take,
        List.length_drop, List.getElem?_take, List.getElem?_drop]
      split_ifs <;> first | rfl | omega | (congr 1; omega)

theorem live_buffer (N : Nat) (dev : scull_pipe) (hl : live N dev) :
    ∃ b, dev.buffer = some b ∧ b.length = N := by
  obtain ⟨hb, -⟩ := hl
  cases hbuf : dev.buffer with
  | none => simp [hbuf] at hb
  | some b => exact ⟨b, rfl, by simpa [hbuf] using hb⟩

theorem sfree_lt (N : Nat) (dev : scull_pipe) (hl : live N dev) : sfree N dev < N := by
  obtain ⟨-, -, -, hr, hw, -⟩ := hl
  unfold sfree; split_ifs <;> omega

theorem wlen_le (N : Nat) (dev : scull_pipe) (count : Nat) :
    wlen N dev count ≤ sfree N dev ∧
    wlen N dev count ≤ (if dev.rp ≤ dev.wp then N - dev.wp else dev.rp - dev.wp - 1) ∧
    wlen N dev count ≤ count := by
  unfold wlen; omega

/-- The block `copy_from_user` leaves behind is the old block with `n` bytes
replaced at `off`. -/
theorem copy_from_user_store (b buf : List Nat) (off n : Nat) :
    ∃ s, s.length = n ∧ (copy_from_user b off buf n).1 = b.take off ++ s ++ b.drop (off + s.length)
      ∧ (n ≤ buf.length → s = buf.take n) := by
  refine ⟨buf.take n ++ List.replicate (n - buf.length) 0, ?_, ?_, ?_⟩
  · simp; omega
  · have : (buf.take n ++ List.replicate (n - buf.length) 0).length = n := by simp; omega
    rw [this]; rfl
  · intro h
    have : n - buf.length = 0 := by omega
    simp [this]

/-- A write keeps a live device live, and appends the accepted bytes to the
unread range. -/
theorem write_inv (N : Nat) (hN : N ≤ INT_MAX) (dev : scull_pipe) (hl : live N dev)
    (filp : file) (buf : List Nat) (count : Nat) (sig : Bool) :
    live N (scull_p_write dev filp buf count sig).2 ∧
    unread (scull_p_write dev filp buf count sig).2 =
      unread dev ++ accepted buf (scull_p_write dev filp buf count sig).1 := by
  rw [scull_p_write_live N hN dev hl]
  obtain ⟨b, hb, hbl⟩ := live_buffer N dev hl
  obtain ⟨hk1, hk2, -⟩ := wlen_le N dev count
  obtain ⟨s, hsl, hst, hsb⟩ := copy_from_user_store b buf dev.wp (wlen N dev count)
  have hl' := hl
  obtain ⟨-, hbs, he, hr, hw, hs⟩ := hl'
  have hoff : dev.wp + s.length ≤ b.length := by split_ifs at hk2 <;> omega
  have hbl' : (b.take dev.wp ++ s ++ b.drop (dev.wp + s.length)).length = N := by
    rw [store_length b s dev.wp hoff, hbl]
  by_cases h0 : sfree N dev = 0
  · rw [if_pos h0]
    split_ifs <;> exact ⟨hl, by simp [accepted]⟩
  · rw [if_neg h0]
    simp only [hb, Option.getD_some, hst]
    by_cases hf : buf.length < wlen N dev count
    · rw [if_pos hf]
      refine ⟨⟨by simp only [Option.map_some', hbl'], hbs, he, hr, hw, hs⟩, ?_⟩
      have := unread_store_same dev.rp dev.wp b s (by omega) (by omega) (by rw [hsl, hbl]; exact hk2)
      simp only [unread, hb, Option.getD_some, accepted, List.append_nil]
      exact this
    · rw [if_neg hf]
      have hsb' : s = buf.take (wlen N dev count) := hsb (by omega)
      refine ⟨⟨by simp only [Option.map_some', hbl'], hbs, he, hr, ?_, hs⟩, ?_⟩
      · simp only; split_ifs <;> omega
      · have := unread_store_adv dev.rp dev.wp b s (by omega) (by omega)
          (by rw [hsl, hbl]; exact hk1) (by rw [hsl, hbl]; exact hk2)
        simp only [hsl, hbl] at this
        simp only [unread, hb, Option.getD_some, accepted, hsl]
        rw [this, hsb']

/-- A read keeps a live device live, and removes the returned bytes from the
front of the unread range. -/
theorem read_inv (N : Nat) (hN : N ≤ INT_MAX) (dev : scull_pipe) (hl : live N dev)
    (filp : file) (ubuf count : Nat) (sig : Bool) :
    live N (scull_p_read dev filp ubuf count sig).2 ∧
    unread dev = returned (scull_p_read dev filp ubuf count sig).1 ++
      unread (scull_p_read dev filp ubuf count sig).2 := by
  rw [scull_p_read_live N hN dev hl]
  obtain ⟨b, hb, hbl⟩ := live_buffer N dev hl
  have hl' := hl
  obtain ⟨hbm, hbs, he, hr, hw, hs⟩ := hl'
  by_cases h0 : dev.rp = dev.wp
  · rw [if_pos h0]
    split_ifs <;> exact ⟨hl, by simp [returned]⟩
  · rw [if_neg h0]
    by_cases hf : ubuf < rlen N dev count
    · rw [if_pos hf]
      exact ⟨hl, by simp [returned]⟩
    · rw [if_neg hf]
      have hk : rlen N dev count ≤ if dev.rp < dev.wp then dev.wp - dev.rp else b.length - dev.rp := by
        unfold rlen; rw [hbl]; split_ifs <;> omega
      refine ⟨⟨hbm, hbs, he, ?_, hw, hs⟩, ?_⟩
      · simp only; split_ifs at hk ⊢ <;> omega
      · have := unread_take dev.rp dev.wp (rlen N dev count) b (by omega) (by omega) h0 hk
        simp only [hbl] at this
        simp only [unread, hb, Option.getD_some, returned]
        exact this

theorem history_inv_step (N : Nat) (hN : N ≤ INT_MAX) (t : History) (h : t.inv N) (c : Call) :
    (t.step c).inv N := by
  obtain ⟨hl, hw⟩ := h
  cases c with
  | read filp ubuf count sig =>
    obtain ⟨h1, h2⟩ := read_inv N hN t.dev hl filp ubuf count sig
    refine ⟨h1, ?_⟩
    simp only [History.step]
    rw [hw, h2, List.append_assoc]
  | write filp buf count sig =>
    obtain ⟨h1, h2⟩ := write_inv N hN t.dev hl filp buf count sig
    refine ⟨h1, ?_⟩
    simp only [History.step]
    rw [hw, h2, List.append_assoc]

theorem history_inv_run (N : Nat) (hN : N ≤ INT_MAX) (cs : List Call) :
    ∀ t : History, t.inv N → (t.run cs).inv N := by
  induction cs with
  | nil => intro t h; exact h
  | cons c cs ih =>
    intro t h
    exact ih (t.step c) (history_inv_step N hN t h c)

theorem scull_p_open_some (N : Nat) (dev : scull_pipe) (hs : 0 < dev.sem) (filp : file)
    (b : List Nat) (kmalloc : Option (List Nat)) (sig : Bool)
    (hb : (if dev.buffer = none then kmalloc else dev.buffer) = some b) :
    scull_p_open N dev filp kmalloc sig = (.ok (), opened_dev N dev filp b) := by
  have hs1 : dev.sem - 1 + 1 = dev.sem := by omega
  unfold scull_p_open scull_p_open_rest opened_dev
  simp only [down_interruptible, hs, if_true]
  by_cases h : dev.buffer = none
  · rw [if_pos h] at hb
    simp only [h, hb, if_true, up, hs1]
    split_ifs <;> simp_all
  · rw [if_neg h] at hb
    simp only [hb, up, hs1]
    split_ifs <;> simp_all

theorem scull_p_open_none (N : Nat) (dev : scull_pipe) (hs : 0 < dev.sem) (filp : file)
    (sig : Bool) (hb : dev.buffer = none) :
    scull_p_open N dev filp none sig = (.err .ENOMEM, dev) := by
  have hs1 : dev.sem - 1 + 1 = dev.sem := by omega
  unfold scull_p_open
  simp only [down_interruptible, hs, if_true, hb, up, hs1]
  rw [← hb]

theorem history_inv_opened (N : Nat) (h0 : 0 < N) (filp : file) (mem : List Nat)
    (hmem : mem.length = N) (sig : Bool) : (History.opened N filp mem sig).inv N := by
  unfold History.inv History.opened
  rw [scull_p_open_some N scull_p_init (by decide) filp mem (some mem) sig rfl]
  simp [live, unread, opened_dev, scull_p_init, hmem, h0]

theorem unread_length (N : Nat) (dev : scull_pipe) (hl : live N dev) :
    ((unread dev).length : Int) = ((dev.wp : Int) - (dev.rp : Int)) % (N : Int) ∧
    spacefree dev + ((unread dev).length : Int) = (N : Int) - 1 := by
  obtain ⟨b, hb, hbl⟩ := live_buffer N dev hl
  rw [spacefree_live N dev hl]
  obtain ⟨-, -, -, hr, hw, -⟩ := hl
  have hlen : (unread dev).length = if dev.rp ≤ dev.wp then dev.wp - dev.rp
      else N - dev.rp + dev.wp := by
    simp only [unread, hb, Option.getD_some]
    split_ifs <;> simp <;> omega
  rw [hlen]
  constructor
  · split_ifs with h
    · rw [Int.emod_eq_of_lt (by omega) (by omega)]; omega
    · rw [← Int.add_emod_self, Int.emod_eq_of_lt (by omega) (by omega)]; omega
  · unfold sfree
    split_ifs <;> omega

/-- C1 (FIFO round trip).  For every capacity `N ≥ 2` (an `int`) and every finite
sequence of read and write calls issued after one open of a fresh device, the
bytes returned by the reads, concatenated, are an initial segment of the bytes
accepted by the writes, concatenated, and what remains is exactly the circular
buffer content from `rp` up to `wp`. -/
theorem C1_fifo_round_trip (N : Nat) (h2 : 2 ≤ N) (hN : N ≤ INT_MAX) (filp : file)
    (mem : List Nat) (hmem : mem.length = N) (sig : Bool) (calls : List Call) :
    ((History.opened N filp mem sig).run calls).readback <+:
        ((History.opened N filp mem sig).run calls).written ∧
    ((History.opened N filp mem sig).run calls).written =
      ((History.opened N filp mem sig).run calls).readback ++
        unread ((History.opened N filp mem sig).run calls).dev := by
  obtain ⟨-, hw⟩ := history_inv_run N hN calls _
    (history_inv_opened N (by omega) filp mem hmem sig)
  exact ⟨⟨_, hw.symm⟩, hw⟩

/-- C2 (capacity bound).  For every capacity `N ≥ 2` and every sequence of read
and write calls after one open, the number of buffered bytes (accepted by writes
minus returned by reads) equals `(wp - rp) mod N`, is at most `N - 1`, and
`spacefree` plus the buffered bytes is `N - 1`. -/
theorem C2_capacity_bound (N : Nat) (h2 : 2 ≤ N) (hN : N ≤ INT_MAX) (filp : file)
    (mem : List Nat) (hmem : mem.length = N) (sig : Bool) (calls : List Call) :
    (((History.opened N filp mem sig).run calls).written.length : Int) -
        (((History.opened N filp mem sig).run calls).readback.length : Int) =
      ((((History.opened N filp mem sig).run calls).dev.wp : Int) -
        (((History.opened N filp mem sig).run calls).dev.rp : Int)) % (N : Int) ∧
    (((History.opened N filp mem sig).run calls).written.length : Int) -
        (((History.opened N filp mem sig).run calls).readback.length : Int) ≤ (N : Int) - 1 ∧
    spacefree ((History.opened N filp mem sig).run calls).dev +
      ((((History.opened N filp mem sig).run calls).written.length : Int) -
        (((History.opened N filp mem sig).run calls).readback.length : Int)) = (N : Int) - 1 := by
  obtain ⟨hl, hw⟩ := history_inv_run N hN calls _
    (history_inv_opened N (by omega) filp mem hmem sig)
  obtain ⟨h3, h4⟩ := unread_length N _ hl
  have hsf := spacefree_live N _ hl
  have hlen := congrArg List.length hw
  rw [List.length_append] at hlen
  refine ⟨?_, ?_, ?_⟩
  · rw [← h3]; omega
  · rw [hsf] at h4; omega
  · rw [← h4]; omega

theorem store_drop_take (b s : List Nat) (off : Nat) (h : off + s.length ≤ b.length) :
    ((b.take off ++ s ++ b.drop (off + s.length)).drop off).take s.length = s := by
  apply List.ext_getElem?
  intro i
  simp only [List.getElem?_take, List.getElem?_drop, store_getElem? b s off _ h]
  split_ifs <;> first | rfl | omega | (congr 1; omega) | (symm; rw [List.getElem?_eq_none]; omega)

/-- C5 (write transfer length).  On a live device of capacity `N` with
`spacefree > 0`, a write that does not fault returns
`min(count, spacefree, N - wp)` when `wp >= rp` and
`min(count, spacefree, rp - wp - 1)` otherwise; the first that-many input bytes
are stored at `buffer[wp ...]`, and `wp` advances by that amount, wrapping to 0
when it reaches `N`. -/
theorem C5_write_transfer_length (N : Nat) (hN : N ≤ INT_MAX) (dev : scull_pipe)
    (hl : live N dev) (hsf : 0 < spacefree dev) (filp : file) (buf : List Nat) (count : Nat)
    (sig : Bool) (hnf : (scull_p_write dev filp buf count sig).1 ≠ .err .EFAULT) :
    ∃ (k : Nat) (b' : List Nat),
      (k : Int) = (if dev.wp ≥ dev.rp
        then min (count : Int) (min (spacefree dev) ((N : Int) - (dev.wp : Int)))
        else min (count : Int) (min (spacefree dev) ((dev.rp : Int) - (dev.wp : Int) - 1))) ∧
      (scull_p_write dev filp buf count sig).1 = .ok k ∧
      (scull_p_write dev filp buf count sig).2.buffer = some b' ∧
      b'.length = N ∧ (b'.drop dev.wp).take k = buf.take k ∧ (buf.take k).length = k ∧
      (scull_p_write dev filp buf count sig).2.wp =
        (if dev.wp + k = N then 0 else dev.wp + k) ∧
      (scull_p_write dev filp buf count sig).2.wp = (dev.wp + k) % N := by
  have hsfl := spacefree_live N dev hl
  rw [scull_p_write_live N hN dev hl] at hnf ⊢
  obtain ⟨b, hb, hbl⟩ := live_buffer N dev hl
  obtain ⟨hk1, hk2, hk3⟩ := wlen_le N dev count
  obtain ⟨s, hsl, hst, hsb⟩ := copy_from_user_store b buf dev.wp (wlen N dev count)
  obtain ⟨-, hbs, he, hr, hw, hs⟩ := hl
  have h0 : ¬ sfree N dev = 0 := by rw [hsfl] at hsf; omega
  have hoff : dev.wp + s.length ≤ b.length := by split_ifs at hk2 <;> omega
  rw [if_neg h0] at hnf ⊢
  have hf : ¬ buf.length < wlen N dev count := by
    intro hf; rw [if_pos hf] at hnf; exact hnf rfl
  rw [if_neg hf]
  have hsb' : s = buf.take (wlen N dev count) := hsb (by omega)
  refine ⟨wlen N dev count, b.take dev.wp ++ s ++ b.drop (dev.wp + s.length), ?_, rfl, ?_, ?_, ?_, ?_,
    rfl, ?_⟩
  · rw [hsfl]
    unfold wlen
    split_ifs <;> omega
  · simp only [hb, Option.getD_some, hst]
  · rw [store_length b s dev.wp hoff, hbl]
  · have := store_drop_take b s dev.wp hoff
    rw [hsl] at this ⊢
    rw [this, hsb']
  · rw [← hsb', hsl]
  · simp only
    split_ifs with h1
    · rw [h1, Nat.mod_self]
    · rw [Nat.mod_eq_of_lt]
      split_ifs at hk2 <;> omega

/-- C6 (read transfer length).  On a live device of capacity `N` with
`rp != wp`, a read that does not fault returns `min(max_count, wp - rp)` when
`wp > rp` and `min(max_count, N - rp)` otherwise, so the copy never runs past
the physical end of the buffer; the bytes returned are
`buffer[rp .. rp + count)`, and `rp` advances by the count, wrapping to 0 when
it reaches `N`. -/
theorem C6_read_transfer_length (N : Nat) (hN : N ≤ INT_MAX) (dev : scull_pipe)
    (hl : live N dev) (hne : dev.rp ≠ dev.wp) (filp : file) (ubuf max_count : Nat)
    (sig : Bool) (hnf : (scull_p_read dev filp ubuf max_count sig).1 ≠ .err .EFAULT) :
    ∃ (k : Nat) (b : List Nat),
      k = (if dev.wp > dev.rp then min max_count (dev.wp - dev.rp)
        else min max_count (N - dev.rp)) ∧
      dev.rp + k ≤ N ∧
      dev.buffer = some b ∧
      (scull_p_read dev filp ubuf max_count sig).1 = .ok (k, (b.drop dev.rp).take k) ∧
      ((b.drop dev.rp).take k).length = k ∧
      (scull_p_read dev filp ubuf max_count sig).2.buffer = some b ∧
      (scull_p_read dev filp ubuf max_count sig).2.rp =
        (if dev.rp + k = N then 0 else dev.rp + k) ∧
      (scull_p_read dev filp ubuf max_count sig).2.rp = (dev.rp + k) % N := by
  rw [scull_p_read_live N hN dev hl] at hnf ⊢
  obtain ⟨b, hb, hbl⟩ := live_buffer N dev hl
  obtain ⟨-, hbs, he, hr, hw, hs⟩ := hl
  rw [if_neg hne] at hnf ⊢
  have hf : ¬ ubuf < rlen N dev max_count := by
    intro hf; rw [if_pos hf] at hnf; exact hnf rfl
  rw [if_neg hf]
  have hk : dev.rp + rlen N dev max_count ≤ N := by unfold rlen; split_ifs <;> omega
  refine ⟨rlen N dev max_count, b, ?_, hk, hb, ?_, ?_, hb, rfl, ?_⟩
  · unfold rlen; rfl
  · simp only [hb, Option.getD_some]
  · simp only [List.length_take, List.length_drop, hbl]; omega
  · simp only
    split_ifs with h1
    · rw [h1, Nat.mod_self]
    · rw [Nat.mod_eq_of_lt]; omega

/-- C7, amended (non-blocking calls fail fast once they hold the semaphore).
With the semaphore free at the call, a read through a non-blocking handle on an
empty buffer (`rp == wp`) returns `-EAGAIN`, and a write through a non-blocking
handle with `spacefree == 0` returns `-EAGAIN`; in both cases the call returns
(it does not sleep) and the device, with cursors, buffer, counts and semaphore,
is exactly as before.  In particular this holds for a read on a freshly opened,
never written device.  With the semaphore held by another call, a read or a
write through any handle, non-blocking or not, returns `-ERESTARTSYS` when a
signal is pending and sleeps in `down_interruptible` otherwise, and the device
is exactly as before. -/
theorem C7_nonblocking_fail_fast :
    (∀ (dev : scull_pipe) (filp : file) (ubuf count : Nat) (sig : Bool),
      0 < dev.sem → filp.f_flags &&& O_NONBLOCK ≠ 0 → dev.rp = dev.wp →
        scull_p_read dev filp ubuf count sig = (.err .EAGAIN, dev)) ∧
    (∀ (dev : scull_pipe) (filp : file) (buf : List Nat) (count : Nat) (sig : Bool),
      0 < dev.sem → filp.f_flags &&& O_NONBLOCK ≠ 0 → spacefree dev = 0 →
        scull_p_write dev filp buf count sig = (.err .EAGAIN, dev)) ∧
    (∀ (N : Nat) (m m' : Mode) (nonblock : Bool) (mem : List Nat) (ubuf count : Nat)
      (sig sig' : Bool),
        scull_p_read (scull_p_open N scull_p_init (mkfile m nonblock) (some mem) sig).2
          (mkfile m' true) ubuf count sig' =
        (.err .EAGAIN, (scull_p_open N scull_p_init (mkfile m nonblock) (some mem) sig).2)) ∧
    (∀ (dev : scull_pipe) (filp : file) (ubuf count : Nat) (sig : Bool),
      dev.sem = 0 →
        scull_p_read dev filp ubuf count sig =
          (if sig then .err .ERESTARTSYS else .sleeps, dev)) ∧
    (∀ (dev : scull_pipe) (filp : file) (buf : List Nat) (count : Nat) (sig : Bool),
      dev.sem = 0 →
        scull_p_write dev filp buf count sig =
          (if sig then .err .ERESTARTSYS else .sleeps, dev)) := by
  have hread : ∀ (dev : scull_pipe) (filp : file) (ubuf count : Nat) (sig : Bool),
      0 < dev.sem → filp.f_flags &&& O_NONBLOCK ≠ 0 → dev.rp = dev.wp →
        scull_p_read dev filp ubuf count sig = (.err .EAGAIN, dev) := by
    intro dev filp ubuf count sig hs hnb he
    have hs1 : dev.sem - 1 + 1 = dev.sem := by omega
    unfold scull_p_read
    simp only [down_interruptible, hs, if_true]
    rw [if_pos he, if_pos hnb]
    simp only [up, hs1]
  refine ⟨hread, ?_, ?_, ?_, ?_⟩
  · intro dev filp buf count sig hs hnb hsf
    have hs1 : dev.sem - 1 + 1 = dev.sem := by omega
    have hsf' : spacefree { dev with sem := dev.sem - 1 } = 0 := hsf
    unfold scull_p_write
    simp only [down_interruptible, hs, if_true]
    rw [if_pos hsf', if_pos hnb]
    simp only [up, hs1]
  · intro N m m' nonblock mem ubuf count sig sig'
    rw [scull_p_open_some N scull_p_init (by decide) _ mem (some mem) sig rfl]
    exact hread _ _ _ _ _ (by show (0 : Nat) < 1; decide)
      (by show (O_NONBLOCK &&& O_NONBLOCK : Nat) ≠ 0; decide) rfl
  · intro dev filp ubuf count sig hs
    unfold scull_p_read
    simp only [down_interruptible, hs, Nat.lt_irrefl, if_false]
    cases sig <;> rfl
  · intro dev filp buf count sig hs
    unfold scull_p_write
    simp only [down_interruptible, hs, Nat.lt_irrefl, if_false]
    cases sig <;> rfl

/-- What a successful write on a live device returns and leaves behind. -/
theorem write_ok (N : Nat) (hN : N ≤ INT_MAX) (dev : scull_pipe) (hl : live N dev)
    (filp : file) (buf : List Nat) (count : Nat) (sig : Bool) (k : Nat)
    (hw : (scull_p_write dev filp buf count sig).1 = .ok k) :
    ∃ b, dev.buffer = some b ∧ b.length = N ∧
      k = wlen N dev count ∧ k ≤ buf.length ∧ sfree N dev ≠ 0 ∧
      (scull_p_write dev filp buf count sig).2 =
        { dev with
          buffer := some (b.take dev.wp ++ buf.take k ++ b.drop (dev.wp + k)),
          wp := if dev.wp + k = N then 0 else dev.wp + k } := by
  rw [scull_p_write_live N hN dev hl] at hw ⊢
  obtain ⟨b, hb, hbl⟩ := live_buffer N dev hl
  obtain ⟨s, hsl, hst, hsb⟩ := copy_from_user_store b buf dev.wp (wlen N dev count)
  by_cases h0 : sfree N dev = 0
  · rw [if_pos h0] at hw
    split_ifs at hw
  · rw [if_neg h0] at hw ⊢
    by_cases hf : buf.length < wlen N dev count
    · rw [if_pos hf] at hw; simp at hw
    · rw [if_neg hf] at hw ⊢
      have hk : wlen N dev count = k := by simpa using hw
      have hsb' : s = buf.take (wlen N dev count) := hsb (by omega)
      subst hk
      refine ⟨b, hb, hbl, rfl, by omega, h0, ?_⟩
      rw [hb, Option.getD_some, hst, hsl, ← hsb']

/-- C3, amended (single-step round trip).  On a live device of capacity `N`
whose buffer is empty (`rp == wp`, at any offset), a write that returns `k >= 1`
followed by one read with `max_count >= k` into a user buffer with room for `k`
bytes (so that the copy does not fault) returns exactly the first `k` bytes
that were written, with count `k`, and leaves the buffer empty again. -/
theorem C3_single_step_round_trip (N : Nat) (hN : N ≤ INT_MAX) (dev : scull_pipe)
    (hl : live N dev) (he : dev.rp = dev.wp) (filp : file) (buf : List Nat) (count : Nat)
    (sig : Bool) (k : Nat) (hw : (scull_p_write dev filp buf count sig).1 = .ok k)
    (hk : 1 ≤ k) (filp' : file) (ubuf max_count : Nat) (sig' : Bool)
    (hmc : k ≤ max_count) (hub : k ≤ ubuf) :
    (scull_p_read (scull_p_write dev filp buf count sig).2 filp' ubuf max_count sig').1 =
      .ok (k, buf.take k) ∧
    (buf.take k).length = k ∧
    (scull_p_read (scull_p_write dev filp buf count sig).2 filp' ubuf max_count sig').2.rp =
      (scull_p_read (scull_p_write dev filp buf count sig).2 filp' ubuf max_count sig').2.wp := by
  have hl1 := (write_inv N hN dev hl filp buf count sig).1
  obtain ⟨b, hb, hbl, hkw, hkb, h0, hdev⟩ := write_ok N hN dev hl filp buf count sig k hw
  obtain ⟨hk1, hk2, -⟩ := wlen_le N dev count
  rw [← hkw] at hk1 hk2
  rw [scull_p_read_live N hN _ hl1, hdev]
  obtain ⟨-, -, -, hr, hwp, -⟩ := hl
  have hsf : sfree N dev = N - 1 := by unfold sfree; rw [if_pos he]
  rw [if_pos (le_of_eq he)] at hk2
  rw [hsf] at hk1
  have hlen : (buf.take k).length = k := by simp; omega
  have hne : ¬ (dev.rp = if dev.wp + k = N then 0 else dev.wp + k) := by
    split_ifs <;> omega
  have hrl : rlen N { dev with
      buffer := some (b.take dev.wp ++ buf.take k ++ b.drop (dev.wp + k)),
      wp := if dev.wp + k = N then 0 else dev.wp + k } max_count = k := by
    simp only [rlen]
    split_ifs <;> omega
  simp only [hrl]
  rw [if_neg hne, if_neg (by omega)]
  refine ⟨?_, hlen, ?_⟩
  · have := store_drop_take b (buf.take k) dev.wp (by rw [hlen]; omega)
    rw [hlen] at this
    simp only [Option.getD_some, he, this]
  · simp only [he]

/-- C3 as stated fails for a write of no bytes: on the freshly opened capacity-4
pipe a write with count 0 returns 0, and the following non-blocking `read(3)`
returns `-EAGAIN` instead of 0 bytes. -/
theorem C3_counterexample :
    fresh4.rp = fresh4.wp ∧
    (scull_p_write fresh4 (mkfile .ReadWrite true) [] 0 false).1 = .ok 0 ∧
    (scull_p_read (scull_p_write fresh4 (mkfile .ReadWrite true) [] 0 false).2
      (mkfile .ReadWrite true) 3 3 false).1 = .err .EAGAIN ∧
    (scull_p_read (scull_p_write fresh4 (mkfile .ReadWrite true) [] 0 false).2
      (mkfile .ReadWrite true) 3 3 false).1 ≠ .ok (0, []) := by
  decide

/-- C3, amended, at capacity 4: write "ab" then `read(3)` returns "ab". -/
theorem C3_single_step_round_trip_witness :
    4 ≤ INT_MAX ∧ live 4 fresh4 ∧ fresh4.rp = fresh4.wp ∧
    (scull_p_write fresh4 (mkfile .ReadWrite false) [97, 98] 2 false).1 = .ok 2 ∧
    (scull_p_read (scull_p_write fresh4 (mkfile .ReadWrite false) [97, 98] 2 false).2
      (mkfile .ReadWrite false) 3 3 false).1 = .ok (2, [97, 98]) :=
  ⟨by decide, by decide, by decide, by decide,
    (C3_single_step_round_trip 4 (by decide) fresh4 (by decide) (by decide)
      (mkfile .ReadWrite false) [97, 98] 2 false 2 (by decide) (by decide)
      (mkfile .ReadWrite false) 3 3 false (by decide) (by decide)).1⟩

/-- C4 as stated fails: after write "ab" and `read(3)` both cursors stand at
offset 2, and the write of "abcd" transfers 2 bytes, not 3. -/
theorem C4_counterexample :
    (scull_p_write fresh4_ab_read (mkfile .ReadWrite false) [97, 98, 99, 100] 4 false).1
      ≠ .ok 3 := by
  decide

/-- C4, amended (scenario with capacity 4 on a freshly opened pipe, in this
order): write "ab" returns 2; `read(3)` returns "ab" with count 2; the
following write of "abcd" transfers exactly 2 bytes, the run from the write
cursor (offset 2) to the physical end of the buffer, leaving "cd" for later
calls.  A write of "abcd" issued on the freshly opened pipe (cursors at 0)
transfers exactly 3 bytes, leaving "d". -/
theorem C4_scenario :
    (scull_p_write fresh4 (mkfile .ReadWrite false) [97, 98] 2 false).1 = .ok 2 ∧
    (scull_p_read fresh4_ab (mkfile .ReadWrite false) 3 3 false).1 = .ok (2, [97, 98]) ∧
    (scull_p_write fresh4_ab_read (mkfile .ReadWrite false) [97, 98, 99, 100] 4 false).1
      = .ok 2 ∧
    unread (scull_p_write fresh4_ab_read (mkfile .ReadWrite false) [97, 98, 99, 100] 4 false).2
      = [97, 98] ∧
    (scull_p_write fresh4 (mkfile .ReadWrite false) [97, 98, 99, 100] 4 false).1 = .ok 3 ∧
    unread (scull_p_write fresh4 (mkfile .ReadWrite false) [97, 98, 99, 100] 4 false).2
      = [97, 98, 99] := by
  decide

/-- C8 as stated fails: with "ab" buffered (`wp` at offset 2) a second open
succeeds and moves `wp` back to 0, and the two bytes are not returned by the
next read. -/
theorem C8_counterexample :
    fresh4_ab.buffer = some [97, 98, 0, 0] ∧ fresh4_ab.wp = 2 ∧ unread fresh4_ab = [97, 98] ∧
    (scull_p_open 4 fresh4_ab (mkfile .ReadOnly true) none false).1 = .ok () ∧
    (scull_p_open 4 fresh4_ab (mkfile .ReadOnly true) none false).2.wp = 0 ∧
    (scull_p_read (scull_p_open 4 fresh4_ab (mkfile .ReadOnly true) none false).2
      (mkfile .ReadOnly true) 3 3 false).1 = .err .EAGAIN := by
  decide

/-- C8, amended (open on a live buffer).  When the buffer is already allocated
and the semaphore is free, an open in any mode succeeds without allocating (the
result does not depend on what `kmalloc` would return), leaves the buffer
contents unchanged, and sets both `rp` and `wp` to offset 0 as every successful
open does; the unread range is empty afterwards. -/
theorem C8_open_live_buffer (N : Nat) (dev : scull_pipe) (hs : 0 < dev.sem) (b : List Nat)
    (hb : dev.buffer = some b) (filp : file) (kmalloc : Option (List Nat)) (sig : Bool) :
    (scull_p_open N dev filp kmalloc sig).1 = .ok () ∧
    (scull_p_open N dev filp kmalloc sig).2.buffer = some b ∧
    (scull_p_open N dev filp kmalloc sig).2.rp = 0 ∧
    (scull_p_open N dev filp kmalloc sig).2.wp = 0 ∧
    unread (scull_p_open N dev filp kmalloc sig).2 = [] ∧
    scull_p_open N dev filp kmalloc sig = scull_p_open N dev filp none sig := by
  have h : ∀ km : Option (List Nat), (if dev.buffer = none then km else dev.buffer) = some b := by
    intro km; rw [hb]; simp
  rw [scull_p_open_some N dev hs filp b kmalloc sig (h _),
    scull_p_open_some N dev hs filp b none sig (h _)]
  simp [opened_dev, unread]

/-- C8, amended, at the pipe holding "ab". -/
theorem C8_open_live_buffer_witness :
    0 < fresh4_ab.sem ∧ fresh4_ab.buffer = some [97, 98, 0, 0] ∧
    (scull_p_open 4 fresh4_ab (mkfile .WriteOnly false) none false).2.buffer
      = some [97, 98, 0, 0] ∧
    (scull_p_open 4 fresh4_ab (mkfile .WriteOnly false) none false).2.wp = 0 :=
  ⟨by decide, by decide,
    (C8_open_live_buffer 4 fresh4_ab (by decide) [97, 98, 0, 0] (by decide)
      (mkfile .WriteOnly false) none false).2.1,
    (C8_open_live_buffer 4 fresh4_ab (by decide) [97, 98, 0, 0] (by decide)
      (mkfile .WriteOnly false) none false).2.2.2.1⟩

/-- C9 at the failing input: on the fresh device a read-write open followed by
the close of that handle leaves `nreaders = 1` and `nwriters = 1` (they were 0
before the open) and the buffer allocated; the same with a read-only or a
write-only handle brings both counts back to 0 and frees the buffer. -/
theorem C9_readwrite_close_keeps_counts :
    scull_p_init.nreaders = 0 ∧ scull_p_init.nwriters = 0 ∧
    (scull_p_release fresh4 (mkfile .ReadWrite false)).1 = .ok () ∧
    (scull_p_release fresh4 (mkfile .ReadWrite false)).2.nreaders = 1 ∧
    (scull_p_release fresh4 (mkfile .ReadWrite false)).2.nwriters = 1 ∧
    (scull_p_release fresh4 (mkfile .ReadWrite false)).2.buffer = some [0, 0, 0, 0] ∧
    (scull_p_release
      (scull_p_open 4 scull_p_init (mkfile .ReadOnly false) (some [0, 0, 0, 0]) false).2
      (mkfile .ReadOnly false)).2.nreaders = 0 ∧
    (scull_p_release
      (scull_p_open 4 scull_p_init (mkfile .ReadOnly false) (some [0, 0, 0, 0]) false).2
      (mkfile .ReadOnly false)).2.buffer = none ∧
    (scull_p_release
      (scull_p_open 4 scull_p_init (mkfile .WriteOnly false) (some [0, 0, 0, 0]) false).2
      (mkfile .WriteOnly false)).2.nwriters = 0 ∧
    (scull_p_release
      (scull_p_open 4 scull_p_init (mkfile .WriteOnly false) (some [0, 0, 0, 0]) false).2
      (mkfile .WriteOnly false)).2.buffer = none := by
  decide

theorem scull_p_release_eq (dev : scull_pipe) (hs : 0 < dev.sem) (filp : file) :
    scull_p_release dev filp = (.ok (), released_dev dev filp) := by
  have hs1 : dev.sem - 1 + 1 = dev.sem := by omega
  unfold scull_p_release released_dev
  simp only [down, hs, if_true]
  split_ifs <;> simp_all [up]

theorem scull_p_open_cases (N : Nat) (dev : scull_pipe) (hs : 0 < dev.sem) (filp : file)
    (kmalloc : Option (List Nat)) (sig : Bool) :
    scull_p_open N dev filp kmalloc sig = (.err .ENOMEM, dev) ∨
    ∃ b, scull_p_open N dev filp kmalloc sig = (.ok (), opened_dev N dev filp b) := by
  cases h : (if dev.buffer = none then kmalloc else dev.buffer) with
  | some b => exact Or.inr ⟨b, scull_p_open_some N dev hs filp b kmalloc sig h⟩
  | none =>
    left
    by_cases hb : dev.buffer = none
    · rw [if_pos hb] at h
      rw [h]; exact scull_p_open_none N dev hs filp sig hb
    · rw [if_neg hb] at h; exact absurd h hb

theorem sum_map_eraseIdx (f : file → Nat) :
    ∀ (l : List file) (i : Nat) (h : file), l[i]? = some h →
      ((l.eraseIdx i).map f).sum + f h = (l.map f).sum := by
  intro l
  induction l with
  | nil => intro i h hi; simp at hi
  | cons a l ih =>
    intro i h hi
    cases i with
    | zero =>
      simp only [List.getElem?_cons_zero, Option.some.injEq] at hi
      subst hi
      simp [Nat.add_comm]
    | succ i =>
      simp only [List.getElem?_cons_succ] at hi
      have := ih i h hi
      simp only [List.eraseIdx_cons_succ, List.map_cons, List.sum_cons]
      omega

theorem mem_of_mem_eraseIdx (l : List file) (i : Nat) (x : file) (hx : x ∈ l.eraseIdx i) :
    x ∈ l := by
  rw [List.eraseIdx_eq_take_drop_succ] at hx
  rcases List.mem_append.mp hx with h | h
  · exact List.mem_of_mem_take h
  · exact List.mem_of_mem_drop h

theorem mkfile_bits (m : Mode) (nonblock : Bool) :
    0 < rbit (mkfile m nonblock) + wbit (mkfile m nonblock) := by
  cases m <;> cases nonblock <;> decide

/-- C1 on a capacity-4 pipe with the calls `calls4`: "abcde" goes in through
three writes and comes out through three reads. -/
theorem C1_fifo_round_trip_witness :
    2 ≤ 4 ∧ 4 ≤ INT_MAX ∧ [0, 0, 0, 0].length = 4 ∧
    ((History.opened 4 (mkfile .ReadWrite false) [0, 0, 0, 0] false).run calls4).readback
      = [97, 98, 99, 100, 101] ∧
    ((History.opened 4 (mkfile .ReadWrite false) [0, 0, 0, 0] false).run calls4).readback <+:
      ((History.opened 4 (mkfile .ReadWrite false) [0, 0, 0, 0] false).run calls4).written :=
  ⟨by decide, by decide, rfl, by decide,
    (C1_fifo_round_trip 4 (by decide) (by decide) (mkfile .ReadWrite false) [0, 0, 0, 0] rfl
      false calls4).1⟩

/-- C2 on a capacity-4 pipe after the first three calls of `calls4`. -/
theorem C2_capacity_bound_witness :
    2 ≤ 4 ∧ 4 ≤ INT_MAX ∧ [0, 0, 0, 0].length = 4 ∧
    (((History.opened 4 (mkfile .ReadWrite false) [0, 0, 0, 0] false).run
        (calls4.take 3)).written.length : Int) -
      (((History.opened 4 (mkfile .ReadWrite false) [0, 0, 0, 0] false).run
        (calls4.take 3)).readback.length : Int) ≤ ((4 : Nat) : Int) - 1 :=
  ⟨by decide, by decide, rfl,
    (C2_capacity_bound 4 (by decide) (by decide) (mkfile .ReadWrite false) [0, 0, 0, 0] rfl
      false (calls4.take 3)).2.1⟩

/-- C5 on the capacity-4 pipe with both cursors at offset 2: a write of "abcd"
returns 2. -/
theorem C5_write_transfer_length_witness :
    4 ≤ INT_MAX ∧ live 4 fresh4_ab_read ∧ 0 < spacefree fresh4_ab_read ∧
    (scull_p_write fresh4_ab_read (mkfile .ReadWrite false) [97, 98, 99, 100] 4 false).1
      ≠ .err .EFAULT ∧
    ∃ (k : Nat) (b' : List Nat),
      (k : Int) = (if fresh4_ab_read.wp ≥ fresh4_ab_read.rp
        then min ((4 : Nat) : Int)
          (min (spacefree fresh4_ab_read) (((4 : Nat) : Int) - (fresh4_ab_read.wp : Int)))
        else min ((4 : Nat) : Int)
          (min (spacefree fresh4_ab_read)
            ((fresh4_ab_read.rp : Int) - (fresh4_ab_read.wp : Int) - 1))) ∧
      (scull_p_write fresh4_ab_read (mkfile .ReadWrite false) [97, 98, 99, 100] 4 false).1
        = .ok k ∧
      (scull_p_write fresh4_ab_read (mkfile .ReadWrite false) [97, 98, 99, 100] 4 false).2.buffer
        = some b' ∧
      b'.length = 4 ∧ (b'.drop fresh4_ab_read.wp).take k = [97, 98, 99, 100].take k ∧
      ([97, 98, 99, 100].take k).length = k ∧
      (scull_p_write fresh4_ab_read (mkfile .ReadWrite false) [97, 98, 99, 100] 4 false).2.wp =
        (if fresh4_ab_read.wp + k = 4 then 0 else fresh4_ab_read.wp + k) ∧
      (scull_p_write fresh4_ab_read (mkfile .ReadWrite false) [97, 98, 99, 100] 4 false).2.wp =
        (fresh4_ab_read.wp + k) % 4 :=
  ⟨by decide, by decide, by decide, by decide,
    C5_write_transfer_length 4 (by decide) fresh4_ab_read (by decide) (by decide)
      (mkfile .ReadWrite false) [97, 98, 99, 100] 4 false (by decide)⟩

/-- C6 on the capacity-4 pipe holding "ab": `read(3)` returns 2 bytes. -/
theorem C6_read_transfer_length_witness :
    4 ≤ INT_MAX ∧ live 4 fresh4_ab ∧ fresh4_ab.rp ≠ fresh4_ab.wp ∧
    (scull_p_read fresh4_ab (mkfile .ReadWrite false) 3 3 false).1 ≠ .err .EFAULT ∧
    ∃ (k : Nat) (b : List Nat),
      k = (if fresh4_ab.wp > fresh4_ab.rp then min 3 (fresh4_ab.wp - fresh4_ab.rp)
        else min 3 (4 - fresh4_ab.rp)) ∧
      fresh4_ab.rp + k ≤ 4 ∧
      fresh4_ab.buffer = some b ∧
      (scull_p_read fresh4_ab (mkfile .ReadWrite false) 3 3 false).1
        = .ok (k, (b.drop fresh4_ab.rp).take k) ∧
      ((b.drop fresh4_ab.rp).take k).length = k ∧
      (scull_p_read fresh4_ab (mkfile .ReadWrite false) 3 3 false).2.buffer = some b ∧
      (scull_p_read fresh4_ab (mkfile .ReadWrite false) 3 3 false).2.rp =
        (if fresh4_ab.rp + k = 4 then 0 else fresh4_ab.rp + k) ∧
      (scull_p_read fresh4_ab (mkfile .ReadWrite false) 3 3 false).2.rp =
        (fresh4_ab.rp + k) % 4 :=
  ⟨by decide, by decide, by decide, by decide,
    C6_read_transfer_length 4 (by decide) fresh4_ab (by decide) (by decide)
      (mkfile .ReadWrite false) 3 3 false (by decide)⟩

/-- C7, amended, on the capacity-4 pipe: with the semaphore free a non-blocking
read of the fresh pipe and a non-blocking write to the full pipe return
`-EAGAIN` and change nothing; with the semaphore held the non-blocking read
sleeps. -/
theorem C7_nonblocking_fail_fast_witness :
    0 < fresh4.sem ∧ (mkfile .ReadOnly true).f_flags &&& O_NONBLOCK ≠ 0 ∧
    fresh4.rp = fresh4.wp ∧
    scull_p_read fresh4 (mkfile .ReadOnly true) 3 3 false = (.err .EAGAIN, fresh4) ∧
    0 < fresh4_full.sem ∧ spacefree fresh4_full = 0 ∧
    scull_p_write fresh4_full (mkfile .WriteOnly true) [100] 1 false
      = (.err .EAGAIN, fresh4_full) ∧
    fresh4_held.sem = 0 ∧
    scull_p_read fresh4_held (mkfile .ReadOnly true) 3 3 false = (.sleeps, fresh4_held) :=
  ⟨by decide, by decide, by decide,
    C7_nonblocking_fail_fast.1 fresh4 (mkfile .ReadOnly true) 3 3 false
      (by decide) (by decide) (by decide),
    by decide, by decide,
    C7_nonblocking_fail_fast.2.1 fresh4_full (mkfile .WriteOnly true) [100] 1 false
      (by decide) (by decide) (by decide),
    by decide,
    C7_nonblocking_fail_fast.2.2.2.1 fresh4_held (mkfile .ReadOnly true) 3 3 false
      (by decide)⟩

/-- C14 (spacefree, value and sign).  For capacity `N ≥ 2` and both cursors in
`[0, N)`, `spacefree` returns `N - 1` when `rp == wp` and
`((rp - wp + N) mod N) - 1` otherwise; the result lies in `[0, N - 1]`, and it
is 0 exactly when `(wp + 1) mod N == rp`. -/
theorem C14_spacefree_value (N : Nat) (h2 : 2 ≤ N) (dev : scull_pipe)
    (hbs : dev.buffersize = (N : Int)) (hr : dev.rp < N) (hw : dev.wp < N) :
    spacefree dev = (if dev.rp = dev.wp then (N : Int) - 1
      else ((dev.rp : Int) - (dev.wp : Int) + (N : Int)) % (N : Int) - 1) ∧
    0 ≤ spacefree dev ∧ spacefree dev ≤ (N : Int) - 1 ∧
    (spacefree dev = 0 ↔ (dev.wp + 1) % N = dev.rp) := by
  have hsf : spacefree dev = (sfree N dev : Int) := by
    unfold spacefree sfree
    rw [hbs]
    split_ifs with h1 h3
    · omega
    · rw [Int.tmod_eq_emod (by omega) (by omega)]
      rw [Int.emod_eq_of_lt (by omega) (by omega)]
      omega
    · rw [Int.tmod_eq_emod (by omega) (by omega)]
      have : (dev.rp : Int) + N - dev.wp = (dev.rp - dev.wp) + N := by ring
      rw [this, Int.add_emod_self, Int.emod_eq_of_lt (by omega) (by omega)]
      omega
  have hmod : (dev.wp + 1) % N = if dev.wp + 1 = N then 0 else dev.wp + 1 := by
    split_ifs with h
    · rw [h, Nat.mod_self]
    · exact Nat.mod_eq_of_lt (by omega)
  refine ⟨?_, ?_, ?_, ?_⟩
  · rw [hsf]
    unfold sfree
    split_ifs with h1 h3
    · omega
    · rw [Int.emod_eq_of_lt (by omega) (by omega)]; omega
    · rw [Int.add_emod_self, Int.emod_eq_of_lt (by omega) (by omega)]; omega
  · rw [hsf]; omega
  · rw [hsf]; unfold sfree; split_ifs <;> omega
  · rw [hsf, hmod]; unfold sfree; split_ifs <;> omega

/-- A call that finds the semaphore taken leaves the device alone. -/
theorem scull_p_read_busy (dev : scull_pipe) (hs : ¬ 0 < dev.sem) (filp : file)
    (ubuf count : Nat) (sig : Bool) : (scull_p_read dev filp ubuf count sig).2 = dev := by
  unfold scull_p_read
  simp only [down_interruptible, hs, if_false]
  split_ifs <;> rfl

theorem scull_p_write_busy (dev : scull_pipe) (hs : ¬ 0 < dev.sem) (filp : file)
    (buf : List Nat) (count : Nat) (sig : Bool) :
    (scull_p_write dev filp buf count sig).2 = dev := by
  unfold scull_p_write
  simp only [down_interruptible, hs, if_false]
  split_ifs <;> rfl

theorem scull_p_open_busy (N : Nat) (dev : scull_pipe) (hs : ¬ 0 < dev.sem) (filp : file)
    (kmalloc : Option (List Nat)) (sig : Bool) :
    (scull_p_open N dev filp kmalloc sig).2 = dev := by
  unfold scull_p_open
  simp only [down_interruptible, hs, if_false]
  split_ifs <;> rfl

theorem scull_p_release_busy (dev : scull_pipe) (hs : ¬ 0 < dev.sem) (filp : file) :
    (scull_p_release dev filp).2 = dev := by
  unfold scull_p_release
  simp only [down, hs, if_false]

/-- C11 (a fault leaves the cursors alone).  On a live device, when the copy of
a read or of a write comes back short (`copy_to_user` / `copy_from_user` report
bytes not copied), the call returns `-EFAULT`; and whenever a read or a write
returns `-EFAULT`, `rp`, `wp`, both counts and the sequence of unread bytes are
what they were before the call. -/
theorem C11_fault_atomic (N : Nat) (hN : N ≤ INT_MAX) (dev : scull_pipe) (hl : live N dev) :
    (∀ (filp : file) (ubuf count : Nat) (sig : Bool), dev.rp ≠ dev.wp →
      (copy_to_user ubuf ((dev.buffer.getD []).drop dev.rp) (rlen N dev count)).2 ≠ 0 →
        (scull_p_read dev filp ubuf count sig).1 = .err .EFAULT) ∧
    (∀ (filp : file) (buf : List Nat) (count : Nat) (sig : Bool), spacefree dev ≠ 0 →
      (copy_from_user (dev.buffer.getD []) dev.wp buf (wlen N dev count)).2 ≠ 0 →
        (scull_p_write dev filp buf count sig).1 = .err .EFAULT) ∧
    (∀ (filp : file) (ubuf count : Nat) (sig : Bool),
      (scull_p_read dev filp ubuf count sig).1 = .err .EFAULT →
        (scull_p_read dev filp ubuf count sig).2 = dev) ∧
    (∀ (filp : file) (buf : List Nat) (count : Nat) (sig : Bool),
      (scull_p_write dev filp buf count sig).1 = .err .EFAULT →
        (scull_p_write dev filp buf count sig).2.rp = dev.rp ∧
        (scull_p_write dev filp buf count sig).2.wp = dev.wp ∧
        (scull_p_write dev filp buf count sig).2.nreaders = dev.nreaders ∧
        (scull_p_write dev filp buf count sig).2.nwriters = dev.nwriters ∧
        unread (scull_p_write dev filp buf count sig).2 = unread dev) := by
  refine ⟨?_, ?_, ?_, ?_⟩
  · intro filp ubuf count sig hne hc
    rw [scull_p_read_live N hN dev hl, if_neg hne]
    have hf : ubuf < rlen N dev count := by
      simp only [copy_to_user] at hc; omega
    rw [if_pos hf]
  · intro filp buf count sig hsf hc
    rw [scull_p_write_live N hN dev hl]
    have h0 : ¬ sfree N dev = 0 := by
      intro h; apply hsf; rw [spacefree_live N dev hl, h]; rfl
    have hf : buf.length < wlen N dev count := by
      simp only [copy_from_user] at hc; omega
    rw [if_neg h0, if_pos hf]
  · intro filp ubuf count sig h
    rw [scull_p_read_live N hN dev hl] at h ⊢
    split_ifs at h ⊢ <;> rfl
  · intro filp buf count sig h
    have hu := (write_inv N hN dev hl filp buf count sig).2
    rw [h] at hu
    simp only [accepted, List.append_nil] at hu
    refine ⟨?_, ?_, ?_, ?_, hu⟩ <;>
    · rw [scull_p_write_live N hN dev hl] at h ⊢
      split_ifs at h ⊢ <;> rfl

/-- C12 (open fails atomically).  With the semaphore free, the buffer absent
and `kmalloc` returning NULL, an open in any mode returns `-ENOMEM` and leaves
the device exactly as it was: the semaphore is free again, both counts are
unchanged and the buffer is still absent. -/
theorem C12_open_enomem (N : Nat) (dev : scull_pipe) (hs : 0 < dev.sem)
    (hb : dev.buffer = none) (filp : file) (sig : Bool) :
    scull_p_open N dev filp none sig = (.err .ENOMEM, dev) ∧
    (scull_p_open N dev filp none sig).2.sem = dev.sem ∧
    (scull_p_open N dev filp none sig).2.nreaders = dev.nreaders ∧
    (scull_p_open N dev filp none sig).2.nwriters = dev.nwriters ∧
    (scull_p_open N dev filp none sig).2.buffer = none := by
  rw [scull_p_open_none N dev hs filp sig hb]
  exact ⟨rfl, rfl, rfl, rfl, hb⟩

/-- C13 (no transfer touches the other side).  On a live device, a write
leaves `rp` unchanged, keeps the buffer at `N` bytes and changes no cell of the
unread range, and the unread bytes are still there, in place, at the front of
the unread range after the call; a read leaves `wp` and the whole buffer
unchanged. -/
theorem C13_transfer_frame (N : Nat) (hN : N ≤ INT_MAX) (dev : scull_pipe) (hl : live N dev)
    (b : List Nat) (hb : dev.buffer = some b) :
    (∀ (filp : file) (buf : List Nat) (count : Nat) (sig : Bool),
      (scull_p_write dev filp buf count sig).2.rp = dev.rp ∧
      (∃ b' : List Nat, (scull_p_write dev filp buf count sig).2.buffer = some b' ∧
        b'.length = N ∧ ∀ i, in_unread dev i → b'[i]? = b[i]?) ∧
      unread dev <+: unread (scull_p_write dev filp buf count sig).2) ∧
    (∀ (filp : file) (ubuf count : Nat) (sig : Bool),
      (scull_p_read dev filp ubuf count sig).2.wp = dev.wp ∧
      (scull_p_read dev filp ubuf count sig).2.buffer = some b) := by
  have hbl : b.length = N := by
    obtain ⟨b0, hb0, hbl0⟩ := live_buffer N dev hl
    rw [hb] at hb0; cases hb0; exact hbl0
  constructor
  · intro filp buf count sig
    have hu := (write_inv N hN dev hl filp buf count sig).2
    refine ⟨?_, ?_, ⟨_, hu.symm⟩⟩
    · rw [scull_p_write_live N hN dev hl]
      split_ifs <;> rfl
    · obtain ⟨-, hk2, -⟩ := wlen_le N dev count
      obtain ⟨s, hsl, hst, -⟩ := copy_from_user_store b buf dev.wp (wlen N dev count)
      have hl' := hl
      obtain ⟨-, -, -, hr, hw, -⟩ := hl'
      have hoff : dev.wp + s.length ≤ b.length := by split_ifs at hk2 <;> omega
      have hcell : ∀ i, in_unread dev i →
          (b.take dev.wp ++ s ++ b.drop (dev.wp + s.length))[i]? = b[i]? := by
        intro i hi
        rw [store_getElem? b s dev.wp i hoff]
        unfold in_unread at hi
        split_ifs at hi hk2 ⊢ <;> first | rfl | omega
      rw [scull_p_write_live N hN dev hl]
      simp only [hb, Option.getD_some, hst]
      split_ifs <;> first
        | exact ⟨b, hb, hbl, fun _ _ => rfl⟩
        | exact ⟨_, rfl, by rw [store_length b s dev.wp hoff, hbl], hcell⟩
  · intro filp ubuf count sig
    rw [scull_p_read_live N hN dev hl]
    split_ifs <;> exact ⟨rfl, hb⟩

/-- C16 (cursor range).  For capacity `N ≥ 2`, if `rp` and `wp` are in `[0, N)`
before a call, they are in `[0, N)` after it: after every open, and after every
read and write on an open pipe (buffer of `N` bytes, `end = buffer + N`),
whatever the outcome of the call and whether the semaphore was free or not. -/
theorem C16_cursor_range (N : Nat) (h2 : 2 ≤ N) (hN : N ≤ INT_MAX) (dev : scull_pipe)
    (hr : dev.rp < N) (hw : dev.wp < N) :
    (∀ (filp : file) (kmalloc : Option (List Nat)) (sig : Bool),
      (scull_p_open N dev filp kmalloc sig).2.rp < N ∧
      (scull_p_open N dev filp kmalloc sig).2.wp < N) ∧
    (dev.buffer.map List.length = some N → dev.buffersize = (N : Int) → dev.end_ = N →
      (∀ (filp : file) (ubuf count : Nat) (sig : Bool),
        (scull_p_read dev filp ubuf count sig).2.rp < N ∧
        (scull_p_read dev filp ubuf count sig).2.wp < N) ∧
      (∀ (filp : file) (buf : List Nat) (count : Nat) (sig : Bool),
        (scull_p_write dev filp buf count sig).2.rp < N ∧
        (scull_p_write dev filp buf count sig).2.wp < N)) := by
  constructor
  · intro filp kmalloc sig
    by_cases hs : 0 < dev.sem
    · rcases scull_p_open_cases N dev hs filp kmalloc sig with h | ⟨b, h⟩
      · rw [h]; exact ⟨hr, hw⟩
      · rw [h]; simp only [opened_dev]; omega
    · rw [scull_p_open_busy N dev hs]; exact ⟨hr, hw⟩
  · intro hb hbs he
    constructor
    · intro filp ubuf count sig
      by_cases hs : 0 < dev.sem
      · obtain ⟨-, -, -, h1, h3, -⟩ :=
          (read_inv N hN dev ⟨hb, hbs, he, hr, hw, hs⟩ filp ubuf count sig).1
        exact ⟨h1, h3⟩
      · rw [scull_p_read_busy dev hs]; exact ⟨hr, hw⟩
    · intro filp buf count sig
      by_cases hs : 0 < dev.sem
      · obtain ⟨-, -, -, h1, h3, -⟩ :=
          (write_inv N hN dev ⟨hb, hbs, he, hr, hw, hs⟩ filp buf count sig).1
        exact ⟨h1, h3⟩
      · rw [scull_p_write_busy dev hs]; exact ⟨hr, hw⟩

theorem semPres_suffix (env env' : List Turn) (h : env' <:+ env) (hp : SemPres env) :
    SemPres env' :=
  fun t ht d => hp t (h.subset ht) d

theorem readsOk_append (l : List (Site × Bool)) (s : Site) (b : Bool) (h : ReadsOk l)
    (hb : b = true ↔ s ≠ Site.wait_test) : ReadsOk (l ++ [(s, b)]) := by
  intro r hr
  rcases List.mem_append.mp hr with h1 | h1
  · exact h r h1
  · simp only [List.mem_singleton] at h1
    subst h1
    exact hb

/-- What `down_interruptible_env` does to a caller that does not hold the
semaphore. -/
theorem down_interruptible_env_spec (env : List Turn) :
    ∀ c : Cfg, c.held = false →
      match down_interruptible_env env c with
      | .acquired c' => c'.held = true ∧ c'.reads = c.reads ∧ c'.env <:+ env ∧
          (SemPres env → c'.dev.sem + 1 = c.dev.sem)
      | .interrupted c' => c'.held = false ∧ c'.reads = c.reads ∧
          (SemPres env → c'.dev.sem = c.dev.sem)
      | .sleeps c' => c'.held = false ∧ c'.reads = c.reads ∧
          (SemPres env → c'.dev.sem = c.dev.sem) := by
  induction env with
  | nil =>
    intro c hc
    unfold down_interruptible_env
    split_ifs with h1 h2
    · exact ⟨rfl, rfl, List.suffix_refl _, fun _ => by simp only; omega⟩
    · exact ⟨hc, rfl, fun _ => rfl⟩
    · exact ⟨hc, rfl, fun _ => rfl⟩
  | cons t env ih =>
    intro c hc
    unfold down_interruptible_env
    split_ifs with h1 h2
    · exact ⟨rfl, rfl, List.suffix_refl _, fun _ => by simp only; omega⟩
    · exact ⟨hc, rfl, fun _ => rfl⟩
    · have := ih { c with dev := t.others c.dev, pending := c.pending || t.intr } hc
      simp only
      have hsuf : env <:+ t :: env := List.suffix_cons t env
      split <;> rename_i c' heq <;> rw [heq] at this <;> simp only at this
      · obtain ⟨a1, a2, a3, a4⟩ := this
        refine ⟨a1, a2, a3.trans hsuf, fun hp => ?_⟩
        rw [a4 (semPres_suffix _ _ hsuf hp), hp t (List.mem_cons_self t env)]
      · obtain ⟨a1, a2, a4⟩ := this
        refine ⟨a1, a2, fun hp => ?_⟩
        rw [a4 (semPres_suffix _ _ hsuf hp), hp t (List.mem_cons_self t env)]
      · obtain ⟨a1, a2, a4⟩ := this
        refine ⟨a1, a2, fun hp => ?_⟩
        rw [a4 (semPres_suffix _ _ hsuf hp), hp t (List.mem_cons_self t env)]

/-- What `down_env` does to a caller that does not hold the semaphore. -/
theorem down_env_spec (env : List Turn) :
    ∀ c : Cfg, c.held = false →
      match down_env env c with
      | .acquired c' => c'.held = true ∧ c'.reads = c.reads ∧ c'.env <:+ env ∧
          (SemPres env → c'.dev.sem + 1 = c.dev.sem)
      | .sleeps c' => c'.held = false ∧ c'.reads = c.reads ∧
          (SemPres env → c'.dev.sem = c.dev.sem) := by
  induction env with
  | nil =>
    intro c hc
    unfold down_env
    split_ifs with h1
    · exact ⟨rfl, rfl, List.suffix_refl _, fun _ => by simp only; omega⟩
    · exact ⟨hc, rfl, fun _ => rfl⟩
  | cons t env ih =>
    intro c hc
    unfold down_env
    split_ifs with h1
    · exact ⟨rfl, rfl, List.suffix_refl _, fun _ => by simp only; omega⟩
    · have := ih { c with dev := t.others c.dev, pending := c.pending || t.intr } hc
      simp only
      have hsuf : env <:+ t :: env := List.suffix_cons t env
      split <;> rename_i c' heq <;> rw [heq] at this <;> simp only at this
      · obtain ⟨a1, a2, a3, a4⟩ := this
        refine ⟨a1, a2, a3.trans hsuf, fun hp => ?_⟩
        rw [a4 (semPres_suffix _ _ hsuf hp), hp t (List.mem_cons_self t env)]
      · obtain ⟨a1, a2, a4⟩ := this
        refine ⟨a1, a2, fun hp => ?_⟩
        rw [a4 (semPres_suffix _ _ hsuf hp), hp t (List.mem_cons_self t env)]

/-- What `wait_event_interruptible_env` does to a caller that does not hold
the semaphore. -/
theorem wait_event_interruptible_env_spec (env : List Turn) :
    ∀ c : Cfg, c.held = false → ReadsOk c.reads →
      match wait_event_interruptible_env env c with
      | .woken c' => c'.held = false ∧ ReadsOk c'.reads ∧ c'.env <:+ env ∧
          (c.dev.rp = c.dev.wp → c'.env.length < env.length) ∧
          (SemPres env → c'.dev.sem = c.dev.sem)
      | .interrupted c' => c'.held = false ∧ ReadsOk c'.reads ∧
          (SemPres env → c'.dev.sem = c.dev.sem)
      | .sleeps c' => c'.held = false ∧ ReadsOk c'.reads ∧
          (SemPres env → c'.dev.sem = c.dev.sem) := by
  induction env with
  | nil =>
    intro c hc hr
    have hr' : ReadsOk (c.look .wait_test).reads :=
      readsOk_append _ _ _ hr (by rw [hc]; simp)
    unfold wait_event_interruptible_env
    simp only
    split_ifs with h1 h2
    · exact ⟨hc, hr', List.suffix_refl _, fun h => absurd h h1, fun _ => rfl⟩
    · exact ⟨hc, hr', fun _ => rfl⟩
    · exact ⟨hc, hr', fun _ => rfl⟩
  | cons t env ih =>
    intro c hc hr
    have hr' : ReadsOk (c.look .wait_test).reads :=
      readsOk_append _ _ _ hr (by rw [hc]; simp)
    unfold wait_event_interruptible_env
    simp only
    split_ifs with h1 h2
    · exact ⟨hc, hr', List.suffix_refl _, fun h => absurd h h1, fun _ => rfl⟩
    · exact ⟨hc, hr', fun _ => rfl⟩
    · have := ih { c.look .wait_test with dev := t.others c.dev, pending := c.pending || t.intr }
        hc hr'
      have hsuf : env <:+ t :: env := List.suffix_cons t env
      split <;> rename_i c' heq <;> rw [show (c.look Site.wait_test).dev = c.dev from rfl,
        show (c.look Site.wait_test).pending = c.pending from rfl] at heq <;>
        rw [heq] at this <;> simp only at this
      · obtain ⟨a1, a2, a3, -, a4⟩ := this
        refine ⟨a1, a2, a3.trans hsuf, fun _ => ?_, fun hp => ?_⟩
        · have := a3.length_le
          simp only [List.length_cons]; omega
        · rw [a4 (semPres_suffix _ _ hsuf hp), hp t (List.mem_cons_self t env)]
      · obtain ⟨a1, a2, a4⟩ := this
        refine ⟨a1, a2, fun hp => ?_⟩
        rw [a4 (semPres_suffix _ _ hsuf hp), hp t (List.mem_cons_self t env)]
      · obtain ⟨a1, a2, a4⟩ := this
        refine ⟨a1, a2, fun hp => ?_⟩
        rw [a4 (semPres_suffix _ _ hsuf hp), hp t (List.mem_cons_self t env)]

/-- The loop of `scull_p_read` ends within `env.length + 1` iterations: the
call is over with the semaphore released, or the loop was left with the
semaphore held. -/
theorem scull_p_read_loop_spec (filp : file) :
    ∀ (fuel : Nat) (c : Cfg), c.env.length < fuel → c.held = true → ReadsOk c.reads →
      ∃ out, scull_p_read_loop filp fuel c = some out ∧
        match out with
        | .out e => e.cfg.held = false ∧ ReadsOk e.cfg.reads ∧
            (SemPres c.env → e.cfg.dev.sem = c.dev.sem + 1)
        | .go c' => c'.held = true ∧ ReadsOk c'.reads ∧
            (SemPres c.env → c'.dev.sem = c.dev.sem) := by
  intro fuel
  induction fuel with
  | zero => intro c h; omega
  | succ fuel ih =>
    intro c hlen hc hr
    have hr1 : ReadsOk (c.look .loop_test).reads :=
      readsOk_append _ _ _ hr (by rw [hc]; simp)
    unfold scull_p_read_loop
    simp only
    by_cases h0 : (c.look .loop_test).dev.rp = (c.look .loop_test).dev.wp
    · rw [if_pos h0]
      by_cases hnb : filp.f_flags &&& O_NONBLOCK ≠ 0
      · rw [if_pos hnb]
        exact ⟨_, rfl, rfl, hr1, fun _ => rfl⟩
      · rw [if_neg hnb]
        have hw := wait_event_interruptible_env_spec (c.look .loop_test).up.env
          (c.look .loop_test).up rfl hr1
        split <;> rename_i c3 heq3 <;> rw [heq3] at hw <;> simp only at hw
        · obtain ⟨a1, a2, a4⟩ := hw
          exact ⟨_, rfl, a1, a2, fun hp => by rw [a4 hp]; rfl⟩
        · obtain ⟨a1, a2, a4⟩ := hw
          exact ⟨_, rfl, a1, a2, fun hp => by rw [a4 hp]; rfl⟩
        · obtain ⟨a1, a2, a3, a5, a4⟩ := hw
          have a5' := a5 h0
          have hd := down_interruptible_env_spec c3.env c3 a1
          split <;> rename_i c4 heq4 <;> rw [heq4] at hd <;> simp only at hd
          · obtain ⟨b1, b2, b4⟩ := hd
            refine ⟨_, rfl, b1, by rw [b2]; exact a2, fun hp => ?_⟩
            rw [b4 (semPres_suffix _ _ a3 hp), a4 hp]; rfl
          · obtain ⟨b1, b2, b4⟩ := hd
            refine ⟨_, rfl, b1, by rw [b2]; exact a2, fun hp => ?_⟩
            rw [b4 (semPres_suffix _ _ a3 hp), a4 hp]; rfl
          · obtain ⟨b1, b2, b3, b4⟩ := hd
            have hlen4 : c4.env.length < fuel := by
              have := b3.length_le
              have h5 : (c.look .loop_test).up.env.length = c.env.length := rfl
              omega
            obtain ⟨out, ho, hout⟩ := ih c4 hlen4 b1 (by rw [b2]; exact a2)
            refine ⟨out, ho, ?_⟩
            have hs4 : SemPres c.env → c4.dev.sem = c.dev.sem := by
              intro hp
              have h6 := b4 (semPres_suffix _ _ a3 hp)
              have h7 := a4 hp
              have h8 : (c.look .loop_test).up.dev.sem = c.dev.sem + 1 := rfl
              omega
            have hp4 : SemPres c.env → SemPres c4.env := fun hp =>
              semPres_suffix _ _ (b3.trans a3) hp
            cases out with
            | out e =>
              obtain ⟨d1, d2, d3⟩ := hout
              exact ⟨d1, d2, fun hp => by rw [d3 (hp4 hp), hs4 hp]⟩
            | go c' =>
              obtain ⟨d1, d2, d3⟩ := hout
              exact ⟨d1, d2, fun hp => by rw [d3 (hp4 hp), hs4 hp]⟩
    · rw [if_neg h0]
      exact ⟨_, rfl, hc, hr1, fun _ => rfl⟩

/-- The loop of `scull_p_write` ends within `env.length + 1` iterations: the
call is over with the semaphore released, or the loop was left with the
semaphore held. -/
theorem scull_p_write_loop_spec (filp : file) :
    ∀ (fuel : Nat) (c : Cfg), c.env.length < fuel → c.held = true → ReadsOk c.reads →
      ∃ out, scull_p_write_loop filp fuel c = some out ∧
        match out with
        | .out e => e.cfg.held = false ∧ ReadsOk e.cfg.reads ∧
            (SemPres c.env → e.cfg.dev.sem = c.dev.sem + 1)
        | .go c' => c'.held = true ∧ ReadsOk c'.reads ∧
            (SemPres c.env → c'.dev.sem = c.dev.sem) := by
  intro fuel
  induction fuel with
  | zero => intro c h; omega
  | succ fuel ih =>
    intro c hlen hc hr
    have hr1 : ReadsOk (c.look .loop_test).reads :=
      readsOk_append _ _ _ hr (by rw [hc]; simp)
    have hr3 : ReadsOk ((c.look .loop_test).up.look .wait_test).reads :=
      readsOk_append _ _ _ hr1 (by simp [Cfg.up])
    unfold scull_p_write_loop
    simp only
    by_cases h0 : spacefree (c.look .loop_test).dev = 0
    · rw [if_pos h0]
      by_cases hnb : filp.f_flags &&& O_NONBLOCK ≠ 0
      · rw [if_pos hnb]
        exact ⟨_, rfl, rfl, hr1, fun _ => rfl⟩
      · rw [if_neg hnb]
        have h0' : spacefree ((c.look .loop_test).up.look .wait_test).dev = 0 := h0
        rw [if_pos h0']
        unfold schedule_env
        by_cases hp : ((c.look .loop_test).up.look .wait_test).pending = true
        · rw [if_pos hp]
          simp only
          rw [if_pos hp]
          exact ⟨_, rfl, rfl, hr3, fun _ => rfl⟩
        · rw [if_neg hp]
          cases henv : c.env with
          | nil =>
            have : ((c.look .loop_test).up.look .wait_test).env = [] := henv
            rw [this]
            exact ⟨_, rfl, rfl, hr3, fun _ => rfl⟩
          | cons t env =>
            have : ((c.look .loop_test).up.look .wait_test).env = t :: env := henv
            rw [this]
            simp only
            split_ifs with hp4
            · refine ⟨_, rfl, rfl, hr3, fun hsp => ?_⟩
              exact hsp t (List.mem_cons_self t env) _
            · have hsuf : env <:+ t :: env := List.suffix_cons t env
              have hd := down_interruptible_env_spec env
                { (c.look .loop_test).up.look .wait_test with
                  dev := t.others ((c.look .loop_test).up.look .wait_test).dev,
                  pending := ((c.look .loop_test).up.look .wait_test).pending || t.intr,
                  env := env } rfl
              have hsem : SemPres (t :: env) →
                  (t.others ((c.look .loop_test).up.look .wait_test).dev).sem =
                    c.dev.sem + 1 := by
                intro hsp
                exact hsp t (List.mem_cons_self t env) _
              split <;> rename_i c5 heq5 <;> rw [heq5] at hd <;> simp only at hd
              · obtain ⟨b1, b2, b4⟩ := hd
                refine ⟨_, rfl, b1, by rw [b2]; exact hr3, fun hsp => ?_⟩
                rw [b4 (semPres_suffix _ _ hsuf hsp), hsem hsp]
              · obtain ⟨b1, b2, b4⟩ := hd
                refine ⟨_, rfl, b1, by rw [b2]; exact hr3, fun hsp => ?_⟩
                rw [b4 (semPres_suffix _ _ hsuf hsp), hsem hsp]
              · obtain ⟨b1, b2, b3, b4⟩ := hd
                have hlen5 : c5.env.length < fuel := by
                  have := b3.length_le
                  rw [henv] at hlen
                  simp only [List.length_cons] at hlen
                  omega
                obtain ⟨out, ho, hout⟩ := ih c5 hlen5 b1 (by rw [b2]; exact hr3)
                refine ⟨out, ho, ?_⟩
                have hs5 : SemPres (t :: env) → c5.dev.sem = c.dev.sem := by
                  intro hsp
                  have h6 := b4 (semPres_suffix _ _ hsuf hsp)
                  have h7 := hsem hsp
                  omega
                have hp5 : SemPres (t :: env) → SemPres c5.env := fun hsp =>
                  semPres_suffix _ _ (b3.trans hsuf) hsp
                cases out with
                | out e =>
                  obtain ⟨d1, d2, d3⟩ := hout
                  exact ⟨d1, d2, fun hsp => by rw [d3 (hp5 hsp), hs5 hsp]⟩
                | go c' =>
                  obtain ⟨d1, d2, d3⟩ := hout
                  exact ⟨d1, d2, fun hsp => by rw [d3 (hp5 hsp), hs5 hsp]⟩
    · rw [if_neg h0]
      exact ⟨_, rfl, hc, hr1, fun _ => rfl⟩

theorem wait_event_interruptible_env_nil (c : Cfg) :
    wait_event_interruptible_env [] c =
      if c.dev.rp ≠ c.dev.wp then .woken { c.look .wait_test with env := [] }
      else if c.pending then .interrupted { c.look .wait_test with env := [] }
      else .sleeps { c.look .wait_test with env := [] } := by
  unfold wait_event_interruptible_env
  rfl

/-- With no other thread, `scull_p_read_path` is `scull_p_read`. -/
theorem scull_p_read_path_nil (sig : Bool) (dev : scull_pipe) (filp : file)
    (ubuf count : Nat) :
    (scull_p_read_path [] sig dev filp ubuf count).map (fun e => (e.ret, e.cfg.dev)) =
      some (scull_p_read dev filp ubuf count sig) := by
  unfold scull_p_read_path scull_p_read
  simp only [down_interruptible_env, down_interruptible, List.length_nil, Nat.zero_add,
    scull_p_read_loop, wait_event_interruptible_env_nil, Cfg.look, Cfg.up]
  by_cases hs : 0 < dev.sem
  · simp only [hs, if_true]
    by_cases h0 : dev.rp = dev.wp
    · simp only [h0, if_true, ne_eq, not_true_eq_false, if_false]
      by_cases hnb : filp.f_flags &&& O_NONBLOCK = 0
      · simp only [hnb, not_true_eq_false, if_false]
        rw [wait_event_interruptible_env_nil]
        simp only [up, ne_eq, not_true_eq_false, if_false]
        split_ifs <;> rfl
      · simp only [hnb, not_false_eq_true, if_true]
        rfl
    · simp only [h0, if_false]
      split_ifs <;> rfl
  · simp only [hs, if_false]
    split_ifs <;> rfl

/-- With no other thread, `scull_p_write_path` is `scull_p_write`. -/
theorem scull_p_write_path_nil (sig : Bool) (dev : scull_pipe) (filp : file)
    (buf : List Nat) (count : Nat) :
    (scull_p_write_path [] sig dev filp buf count).map (fun e => (e.ret, e.cfg.dev)) =
      some (scull_p_write dev filp buf count sig) := by
  have hsf : ∀ s : Nat, spacefree { dev with sem := s } = spacefree dev := fun _ => rfl
  unfold scull_p_write_path scull_p_write
  simp only [down_interruptible_env, down_interruptible, List.length_nil, Nat.zero_add,
    scull_p_write_loop, Cfg.look, Cfg.up, schedule_env, up, hsf]
  by_cases hs : 0 < dev.sem
  · simp only [hs, if_true]
    by_cases h0 : spacefree dev = 0
    · simp only [h0, if_true]
      by_cases hnb : filp.f_flags &&& O_NONBLOCK = 0
      · simp only [ne_eq, hnb, not_true_eq_false, if_false]
        have hA : spacefree { dev with sem := dev.sem - 1 } = 0 := h0
        have hB : spacefree { dev with sem := dev.sem - 1 + 1 } = 0 := h0
        cases sig
        · simp [hA, hB]
        · simp [hA, hB]
      · have hA : spacefree { dev with sem := dev.sem - 1 } = 0 := h0
        simp [hA, hnb]
    · have e1 : spacefree { dev with sem := dev.sem - 1 } = spacefree dev := rfl
      simp only [e1, h0, if_false]
      split_ifs <;> rfl
  · simp only [hs, if_false]
    cases sig <;> simp

/-- With no other thread, `scull_p_open_path` is `scull_p_open`. -/
theorem scull_p_open_path_nil (N : Nat) (sig : Bool) (dev : scull_pipe) (filp : file)
    (kmalloc : Option (List Nat)) :
    ((scull_p_open_path N [] sig dev filp kmalloc).ret,
      (scull_p_open_path N [] sig dev filp kmalloc).cfg.dev) =
      scull_p_open N dev filp kmalloc sig := by
  unfold scull_p_open_path scull_p_open
  simp only [down_interruptible_env, down_interruptible]
  by_cases hs : 0 < dev.sem
  · simp only [hs, if_true]
    have hrest : ∀ c : Cfg,
        ((scull_p_open_rest_path N c filp).ret, (scull_p_open_rest_path N c filp).cfg.dev) =
          scull_p_open_rest N c.dev filp := by
      intro c
      unfold scull_p_open_rest_path scull_p_open_rest
      simp only [Cfg.up]
      split_ifs <;> rfl
    by_cases hb : dev.buffer = none
    · simp only [hb, if_true]
      cases kmalloc with
      | none => rfl
      | some m =>
        simp only [reduceCtorEq, if_false]
        exact hrest _
    · simp only [hb, if_false]
      exact hrest _
  · simp only [hs, if_false]
    cases sig <;> rfl

/-- With no other thread, `scull_p_release_path` is `scull_p_release`. -/
theorem scull_p_release_path_nil (sig : Bool) (dev : scull_pipe) (filp : file) :
    ((scull_p_release_path [] sig dev filp).ret,
      (scull_p_release_path [] sig dev filp).cfg.dev) = scull_p_release dev filp := by
  unfold scull_p_release_path scull_p_release
  simp only [down_env, down]
  by_cases hs : 0 < dev.sem
  · simp only [hs, if_true, Cfg.up]
    split_ifs <;> rfl
  · simp only [hs, if_false]

/-- Every exit of `scull_p_read` with other threads around: the call ends, the
caller does not hold the semaphore, and the reads of the cursors were made under
the semaphore except those of the wait condition. -/
theorem scull_p_read_path_spec (env : List Turn) (sig : Bool) (dev : scull_pipe)
    (filp : file) (ubuf count : Nat) :
    ∃ e, scull_p_read_path env sig dev filp ubuf count = some e ∧
      e.cfg.held = false ∧ ReadsOk e.cfg.reads ∧ (SemPres env → e.cfg.dev.sem = dev.sem) := by
  unfold scull_p_read_path
  simp only
  have hr0 : ReadsOk ([] : List (Site × Bool)) := fun r hr => absurd hr (List.not_mem_nil r)
  have hd := down_interruptible_env_spec env
    { dev := dev, held := false, pending := sig, env := env, reads := [] } rfl
  split <;> rename_i c1 heq1 <;> rw [heq1] at hd <;> simp only at hd
  · obtain ⟨a1, a2, a4⟩ := hd
    exact ⟨_, rfl, a1, by rw [a2]; exact hr0, a4⟩
  · obtain ⟨a1, a2, a4⟩ := hd
    exact ⟨_, rfl, a1, by rw [a2]; exact hr0, a4⟩
  · obtain ⟨a1, a2, a3, a4⟩ := hd
    have hlen : c1.env.length < env.length + 1 := by
      have := a3.length_le; omega
    obtain ⟨out, ho, hout⟩ := scull_p_read_loop_spec filp (env.length + 1) c1 hlen a1
      (by rw [a2]; exact hr0)
    rw [ho]
    cases out with
    | out e =>
      obtain ⟨d1, d2, d3⟩ := hout
      refine ⟨e, rfl, d1, d2, fun hp => ?_⟩
      have := d3 (semPres_suffix _ _ a3 hp)
      have := a4 hp
      omega
    | go c2 =>
      obtain ⟨d1, d2, d3⟩ := hout
      have hs2 : SemPres env → c2.dev.sem + 1 = dev.sem := by
        intro hp
        have := d3 (semPres_suffix _ _ a3 hp)
        have := a4 hp
        omega
      have hr3 : ReadsOk (((c2.look .length).look .copy).look .advance).reads := by
        apply readsOk_append _ _ _ _ (by simp [Cfg.look, d1])
        apply readsOk_append _ _ _ _ (by simp [Cfg.look, d1])
        exact readsOk_append _ _ _ d2 (by simp [d1])
      have hr2 : ReadsOk ((c2.look .length).look .copy).reads := by
        apply readsOk_append _ _ _ _ (by simp [Cfg.look, d1])
        exact readsOk_append _ _ _ d2 (by simp [d1])
      simp only
      split_ifs <;> first
        | exact ⟨_, rfl, rfl, hr2, hs2⟩
        | exact ⟨_, rfl, rfl, hr3, hs2⟩

/-- Every exit of `scull_p_write` with other threads around: the call ends, the
caller does not hold the semaphore, and the reads of the cursors were made under
the semaphore except those of the wait condition. -/
theorem scull_p_write_path_spec (env : List Turn) (sig : Bool) (dev : scull_pipe)
    (filp : file) (buf : List Nat) (count : Nat) :
    ∃ e, scull_p_write_path env sig dev filp buf count = some e ∧
      e.cfg.held = false ∧ ReadsOk e.cfg.reads ∧ (SemPres env → e.cfg.dev.sem = dev.sem) := by
  unfold scull_p_write_path
  simp only
  have hr0 : ReadsOk ([] : List (Site × Bool)) := fun r hr => absurd hr (List.not_mem_nil r)
  have hd := down_interruptible_env_spec env
    { dev := dev, held := false, pending := sig, env := env, reads := [] } rfl
  split <;> rename_i c1 heq1 <;> rw [heq1] at hd <;> simp only at hd
  · obtain ⟨a1, a2, a4⟩ := hd
    exact ⟨_, rfl, a1, by rw [a2]; exact hr0, a4⟩
  · obtain ⟨a1, a2, a4⟩ := hd
    exact ⟨_, rfl, a1, by rw [a2]; exact hr0, a4⟩
  · obtain ⟨a1, a2, a3, a4⟩ := hd
    have hlen : c1.env.length < env.length + 1 := by
      have := a3.length_le; omega
    obtain ⟨out, ho, hout⟩ := scull_p_write_loop_spec filp (env.length + 1) c1 hlen a1
      (by rw [a2]; exact hr0)
    rw [ho]
    cases out with
    | out e =>
      obtain ⟨d1, d2, d3⟩ := hout
      refine ⟨e, rfl, d1, d2, fun hp => ?_⟩
      have := d3 (semPres_suffix _ _ a3 hp)
      have := a4 hp
      omega
    | go c2 =>
      obtain ⟨d1, d2, d3⟩ := hout
      have hs2 : SemPres env → c2.dev.sem + 1 = dev.sem := by
        intro hp
        have := d3 (semPres_suffix _ _ a3 hp)
        have := a4 hp
        omega
      have hr2 : ReadsOk ((c2.look .length).look .copy).reads := by
        apply readsOk_append _ _ _ _ (by simp [Cfg.look, d1])
        exact readsOk_append _ _ _ d2 (by simp [d1])
      have hr3 : ∀ b : Option (List Nat), ReadsOk (Cfg.look
          { (c2.look .length).look .copy with
            dev := { ((c2.look .length).look .copy).dev with buffer := b } } .advance).reads := by
        intro b
        exact readsOk_append _ _ _ hr2 (by simp [Cfg.look, d1])
      simp only
      split_ifs <;> first
        | exact ⟨_, rfl, rfl, hr2, hs2⟩
        | exact ⟨_, rfl, rfl, hr3 _, hs2⟩

/-- Every exit of `scull_p_open` with other threads around. -/
theorem scull_p_open_path_spec (N : Nat) (env : List Turn) (sig : Bool) (dev : scull_pipe)
    (filp : file) (kmalloc : Option (List Nat)) :
    (scull_p_open_path N env sig dev filp kmalloc).cfg.held = false ∧
    (SemPres env → (scull_p_open_path N env sig dev filp kmalloc).cfg.dev.sem = dev.sem) := by
  unfold scull_p_open_path
  simp only
  have hd := down_interruptible_env_spec env
    { dev := dev, held := false, pending := sig, env := env, reads := [] } rfl
  split <;> rename_i c1 heq1 <;> rw [heq1] at hd <;> simp only at hd
  · obtain ⟨a1, a2, a4⟩ := hd
    exact ⟨a1, a4⟩
  · obtain ⟨a1, a2, a4⟩ := hd
    exact ⟨a1, a4⟩
  · obtain ⟨a1, a2, a3, a4⟩ := hd
    unfold scull_p_open_rest_path
    simp only [Cfg.up]
    split_ifs <;> exact ⟨rfl, a4⟩

/-- Every exit of `scull_p_release` with other threads around. -/
theorem scull_p_release_path_spec (env : List Turn) (sig : Bool) (dev : scull_pipe)
    (filp : file) :
    (scull_p_release_path env sig dev filp).cfg.held = false ∧
    (SemPres env → (scull_p_release_path env sig dev filp).cfg.dev.sem = dev.sem) := by
  unfold scull_p_release_path
  simp only
  have hd := down_env_spec env
    { dev := dev, held := false, pending := sig, env := env, reads := [] } rfl
  split <;> rename_i c1 heq1 <;> rw [heq1] at hd <;> simp only at hd
  · obtain ⟨a1, a2, a4⟩ := hd
    exact ⟨a1, a4⟩
  · obtain ⟨a1, a2, a3, a4⟩ := hd
    simp only [Cfg.up]
    split_ifs <;> exact ⟨trivial, a4⟩

theorem semPres_nil : SemPres [] := fun t ht => absurd ht (List.not_mem_nil t)

/-- C17 (lock released on every exit).  With other threads around, whatever
they do and whatever signals arrive, every call of open, close, read and write
ends (by a return or asleep for good) and the caller does not hold the
semaphore then, on every exit: success, `-EAGAIN`, `-ERESTARTSYS` (while taking
the semaphore or while waiting), `-ENOMEM`, `-EFAULT`.  When the other threads
leave the semaphore count as they found it, the count at the exit is the count
at entry, so a call that starts with the semaphore free ends with it free; in
particular this holds for the calls run with no other thread. -/
theorem C17_lock_released (N : Nat) (env : List Turn) (sig : Bool) (dev : scull_pipe)
    (filp : file) :
    (∀ kmalloc : Option (List Nat),
      (scull_p_open_path N env sig dev filp kmalloc).cfg.held = false ∧
      (SemPres env → (scull_p_open_path N env sig dev filp kmalloc).cfg.dev.sem = dev.sem)) ∧
    ((scull_p_release_path env sig dev filp).cfg.held = false ∧
      (SemPres env → (scull_p_release_path env sig dev filp).cfg.dev.sem = dev.sem)) ∧
    (∀ ubuf count : Nat, ∃ e, scull_p_read_path env sig dev filp ubuf count = some e ∧
      e.cfg.held = false ∧ (SemPres env → e.cfg.dev.sem = dev.sem)) ∧
    (∀ (buf : List Nat) (count : Nat),
      ∃ e, scull_p_write_path env sig dev filp buf count = some e ∧
        e.cfg.held = false ∧ (SemPres env → e.cfg.dev.sem = dev.sem)) ∧
    (∀ kmalloc : Option (List Nat), (scull_p_open N dev filp kmalloc sig).2.sem = dev.sem) ∧
    (scull_p_release dev filp).2.sem = dev.sem ∧
    (∀ ubuf count : Nat, (scull_p_read dev filp ubuf count sig).2.sem = dev.sem) ∧
    (∀ (buf : List Nat) (count : Nat),
      (scull_p_write dev filp buf count sig).2.sem = dev.sem) := by
  refine ⟨fun km => scull_p_open_path_spec N env sig dev filp km,
    scull_p_release_path_spec env sig dev filp, ?_, ?_, ?_, ?_, ?_, ?_⟩
  · intro ubuf count
    obtain ⟨e, h1, h2, -, h4⟩ := scull_p_read_path_spec env sig dev filp ubuf count
    exact ⟨e, h1, h2, h4⟩
  · intro buf count
    obtain ⟨e, h1, h2, -, h4⟩ := scull_p_write_path_spec env sig dev filp buf count
    exact ⟨e, h1, h2, h4⟩
  · intro km
    have h := (scull_p_open_path_spec N [] sig dev filp km).2 semPres_nil
    rw [← scull_p_open_path_nil N sig dev filp km]
    exact h
  · have h := (scull_p_release_path_spec [] sig dev filp).2 semPres_nil
    rw [← scull_p_release_path_nil sig dev filp]
    exact h
  · intro ubuf count
    obtain ⟨e, h1, -, -, h4⟩ := scull_p_read_path_spec [] sig dev filp ubuf count
    have h := scull_p_read_path_nil sig dev filp ubuf count
    rw [h1] at h
    simp only [Option.map_some', Option.some.injEq] at h
    rw [← h]
    exact h4 semPres_nil
  · intro buf count
    obtain ⟨e, h1, -, -, h4⟩ := scull_p_write_path_spec [] sig dev filp buf count
    have h := scull_p_write_path_nil sig dev filp buf count
    rw [h1] at h
    simp only [Option.map_some', Option.some.injEq] at h
    rw [← h]
    exact h4 semPres_nil

/-- C17 at a blocking read of the fresh capacity-4 pipe that is woken by a
writer still holding the semaphore and then hit by a signal while it waits for
the semaphore: the read returns `-ERESTARTSYS`, and the caller does not hold
the semaphore. -/
theorem C17_lock_released_witness :
    (scull_p_read_path turns_contended false fresh4 (mkfile .ReadOnly false) 3 3).map
        (fun e => (e.ret, e.cfg.held)) = some (.err .ERESTARTSYS, false) ∧
    SemPres turns_signal ∧
    ∃ e, scull_p_read_path turns_signal false fresh4 (mkfile .ReadOnly false) 3 3 = some e ∧
      e.cfg.held = false ∧ (SemPres turns_signal → e.cfg.dev.sem = fresh4.sem) :=
  ⟨by decide,
    by
      intro t ht d
      simp only [turns_signal, List.mem_singleton] at ht
      subst ht
      rfl,
    (C17_lock_released 4 turns_signal false fresh4 (mkfile .ReadOnly false)).2.2.1 3 3⟩

/-- C18 as stated fails: a blocking write to the full capacity-4 pipe evaluates
`spacefree` a second time (line 174) after `up`, and a blocking read of the
empty pipe evaluates `rp != wp` inside `wait_event_interruptible` (line 109)
after `up`: both reads of the cursors are made without the semaphore. -/
theorem C18_counterexample :
    (scull_p_write_path [] false fresh4_full (mkfile .WriteOnly false) [100] 1).map
        (fun e => (e.ret, e.cfg.reads)) =
      some (.sleeps, [(.loop_test, true), (.wait_test, false)]) ∧
    (scull_p_read_path [] false fresh4 (mkfile .ReadOnly false) 3 3).map
        (fun e => (e.ret, e.cfg.reads)) =
      some (.sleeps, [(.loop_test, true), (.wait_test, false)]) := by
  decide

/-- C18, amended (cursor reads and the lock).  In every read and write call,
with other threads around, every read of `rp` or `wp` made by the loop
condition, by the computation of the transfer length, by the copy and by the
cursor update (every evaluation of `spacefree` at lines 161 and 188 included)
happens while the caller holds the semaphore; the reads made by the wait
condition (`spacefree` at line 174, `rp != wp` inside
`wait_event_interruptible` at line 109) happen after `up`, without it. -/
theorem C18_reads_under_lock (env : List Turn) (sig : Bool) (dev : scull_pipe) (filp : file) :
    (∀ ubuf count : Nat, ∃ e, scull_p_read_path env sig dev filp ubuf count = some e ∧
      ∀ r ∈ e.cfg.reads, (r.2 = true ↔ r.1 ≠ Site.wait_test)) ∧
    (∀ (buf : List Nat) (count : Nat),
      ∃ e, scull_p_write_path env sig dev filp buf count = some e ∧
        ∀ r ∈ e.cfg.reads, (r.2 = true ↔ r.1 ≠ Site.wait_test)) := by
  constructor
  · intro ubuf count
    obtain ⟨e, h1, -, h3, -⟩ := scull_p_read_path_spec env sig dev filp ubuf count
    exact ⟨e, h1, h3⟩
  · intro buf count
    obtain ⟨e, h1, -, h3, -⟩ := scull_p_write_path_spec env sig dev filp buf count
    exact ⟨e, h1, h3⟩

/-- C11 on the capacity-4 pipe holding "ab": a `read(3)` into one writable byte
and a write of one byte from unreadable user memory both fault, and the write
leaves the cursors where they were. -/
theorem C11_fault_atomic_witness :
    4 ≤ INT_MAX ∧ live 4 fresh4_ab ∧ fresh4_ab.rp ≠ fresh4_ab.wp ∧
    (copy_to_user 1 ((fresh4_ab.buffer.getD []).drop fresh4_ab.rp) (rlen 4 fresh4_ab 3)).2 ≠ 0 ∧
    (scull_p_read fresh4_ab (mkfile .ReadOnly false) 1 3 false).1 = .err .EFAULT ∧
    (scull_p_write fresh4_ab (mkfile .WriteOnly false) [] 1 false).1 = .err .EFAULT ∧
    (scull_p_write fresh4_ab (mkfile .WriteOnly false) [] 1 false).2.wp = fresh4_ab.wp :=
  ⟨by decide, by decide, by decide, by decide,
    (C11_fault_atomic 4 (by decide) fresh4_ab (by decide)).1 (mkfile .ReadOnly false) 1 3 false
      (by decide) (by decide),
    by decide,
    ((C11_fault_atomic 4 (by decide) fresh4_ab (by decide)).2.2.2 (mkfile .WriteOnly false)
      [] 1 false (by decide)).2.1⟩

/-- C12 on the initial device. -/
theorem C12_open_enomem_witness :
    0 < scull_p_init.sem ∧ scull_p_init.buffer = none ∧
    scull_p_open 4 scull_p_init (mkfile .ReadWrite false) none false =
      (.err .ENOMEM, scull_p_init) :=
  ⟨by decide, rfl,
    (C12_open_enomem 4 scull_p_init (by decide) rfl (mkfile .ReadWrite false) false).1⟩

/-- C13 on the capacity-4 pipe holding "ab": a write of "cd" leaves `rp` alone
and a `read(3)` leaves `wp` and the buffer alone. -/
theorem C13_transfer_frame_witness :
    4 ≤ INT_MAX ∧ live 4 fresh4_ab ∧ fresh4_ab.buffer = some [97, 98, 0, 0] ∧
    (scull_p_write fresh4_ab (mkfile .WriteOnly false) [99, 100] 2 false).2.rp = fresh4_ab.rp ∧
    unread fresh4_ab <+:
      unread (scull_p_write fresh4_ab (mkfile .WriteOnly false) [99, 100] 2 false).2 ∧
    (scull_p_read fresh4_ab (mkfile .ReadOnly false) 3 3 false).2.buffer
      = some [97, 98, 0, 0] :=
  ⟨by decide, by decide, by decide,
    ((C13_transfer_frame 4 (by decide) fresh4_ab (by decide) [97, 98, 0, 0] (by decide)).1
      (mkfile .WriteOnly false) [99, 100] 2 false).1,
    ((C13_transfer_frame 4 (by decide) fresh4_ab (by decide) [97, 98, 0, 0] (by decide)).1
      (mkfile .WriteOnly false) [99, 100] 2 false).2.2,
    ((C13_transfer_frame 4 (by decide) fresh4_ab (by decide) [97, 98, 0, 0] (by decide)).2
      (mkfile .ReadOnly false) 3 3 false).2⟩

/-- C14 on the full capacity-4 pipe (`rp = 0`, `wp = 3`): `spacefree` is 0. -/
theorem C14_spacefree_value_witness :
    2 ≤ 4 ∧ fresh4_full.buffersize = ((4 : Nat) : Int) ∧ fresh4_full.rp < 4 ∧
    fresh4_full.wp < 4 ∧ (fresh4_full.wp + 1) % 4 = fresh4_full.rp ∧
    spacefree fresh4_full = 0 :=
  ⟨by decide, by decide, by decide, by decide, by decide,
    (C14_spacefree_value 4 (by decide) fresh4_full (by decide) (by decide) (by decide)).2.2.2.mpr
      (by decide)⟩

/-- C16 on the capacity-4 pipe holding "ab", for a write that wraps `wp`. -/
theorem C16_cursor_range_witness :
    2 ≤ 4 ∧ 4 ≤ INT_MAX ∧ fresh4_ab_read.rp < 4 ∧ fresh4_ab_read.wp < 4 ∧
    (scull_p_write fresh4_ab_read (mkfile .WriteOnly false) [99, 100] 2 false).2.wp = 0 ∧
    (scull_p_write fresh4_ab_read (mkfile .WriteOnly false) [99, 100] 2 false).2.wp < 4 :=
  ⟨by decide, by decide, by decide, by decide, by decide,
    (((C16_cursor_range 4 (by decide) (by decide) fresh4_ab_read (by decide) (by decide)).2
      (by decide) (by decide) (by decide)).2 (mkfile .WriteOnly false) [99, 100] 2 false).2⟩

theorem int_wrap_eq (x : Int) (h1 : -2147483648 ≤ x) (h2 : x < 2147483648) :
    int_wrap x = x := by
  unfold int_wrap; omega

/-- One read-write open and the close of that handle add 1 to both counts and
change nothing else, as long as the counts stay below `2^31`. -/
theorem step_rw_pair (hs : List file) (c : Int) (h0 : 0 ≤ c) (h1 : c + 1 < 2147483648) :
    Sys.step 4 (Sys.step 4 (pair_state hs c) rw_open) (.close 0) = pair_state hs (c + 1) := by
  have hopen : scull_p_open 4 (pair_state hs c).dev (mkfile .ReadWrite false)
      (some [0, 0, 0, 0]) false =
      (.ok (), opened_dev 4 (pair_state hs c).dev (mkfile .ReadWrite false) [0, 0, 0, 0]) :=
    scull_p_open_some 4 _ (by show (0 : Nat) < 1; decide) _ _ _ _ (by simp [pair_state])
  have hrel := scull_p_release_eq
    (opened_dev 4 (pair_state hs c).dev (mkfile .ReadWrite false) [0, 0, 0, 0])
    (by show (0 : Nat) < 1; decide) (mkfile .ReadWrite false)
  have hw : int_wrap (c + 1) = c + 1 := int_wrap_eq _ (by omega) (by omega)
  have hsum : int_wrap (c + 1 + (c + 1)) ≠ 0 := by unfold int_wrap; omega
  simp only [rw_open, Sys.step, hopen, List.getElem?_cons_zero, hrel, List.eraseIdx_cons_zero]
  simp [pair_state, opened_dev, released_dev, mkfile, Mode.f_mode, FMODE_READ, FMODE_WRITE,
    hw, hsum]

/-- Read-write open/close pairs only count up: after `n` pairs both counts are
`c + n`, as long as they stay below `2^31`. -/
theorem run_rw_pairs (hs : List file) :
    ∀ (n : Nat) (c : Int), 0 ≤ c → c + n < 2147483648 →
      (rw_pairs n).foldl (Sys.step 4) (pair_state hs c) = pair_state hs (c + n) := by
  intro n
  induction n with
  | zero => intro c _ _; simp [rw_pairs]
  | succ n ih =>
    intro c h0 h1
    simp only [rw_pairs, List.foldl_cons]
    rw [step_rw_pair hs c h0 (by push_cast at h1; omega)]
    rw [ih (c + 1) (by omega) (by push_cast at h1; omega)]
    congr 1
    push_cast
    ring

theorem run_first_open :
    Sys.step 4 { dev := scull_p_init, handles := [] } rw_open =
      pair_state [mkfile .ReadWrite false] 1 := by
  rfl

theorem run_first_pair :
    Sys.step 4 (Sys.step 4 { dev := scull_p_init, handles := [] } rw_open) (.close 0) =
      pair_state [] 1 := by
  rfl

/-- C10 at the failing input: after `2^31` read-write opens, of which only the
first handle is still open, both counts have wrapped to `-2^31`, their `int`
sum is 0, and the last close has freed the buffer although a handle is open. -/
theorem C10_early_free_at_wrap :
    (Sys.run 4 ops_early_free).handles = [mkfile .ReadWrite false] ∧
    (Sys.run 4 ops_early_free).dev.buffer = none ∧
    (Sys.run 4 ops_early_free).dev.nreaders = -2147483648 ∧
    (Sys.run 4 ops_early_free).dev.nwriters = -2147483648 := by
  have h1 : Sys.run 4 ops_early_free =
      [rw_open, Op.close 0].foldl (Sys.step 4) (pair_state [mkfile .ReadWrite false] 2147483647) := by
    unfold Sys.run ops_early_free
    rw [List.foldl_cons, run_first_open, List.foldl_append,
      run_rw_pairs [mkfile .ReadWrite false] 2147483646 1 (by omega) (by norm_num)]
    norm_num
  rw [h1]
  exact ⟨rfl, rfl, rfl, rfl⟩

/-- C15 at the failing input: after `2^31` read-write opens, the last handle
still open, the buffer is allocated while both counts are `-2^31`: the counts
are negative and their sum is not positive. -/
theorem C15_negative_counts_at_wrap :
    (Sys.run 4 ops_negative).handles = [mkfile .ReadWrite false] ∧
    (Sys.run 4 ops_negative).dev.buffer = some [0, 0, 0, 0] ∧
    (Sys.run 4 ops_negative).dev.nreaders = -2147483648 ∧
    (Sys.run 4 ops_negative).dev.nwriters = -2147483648 := by
  have h1 : Sys.run 4 ops_negative =
      [rw_open].foldl (Sys.step 4) (pair_state [] 2147483647) := by
    unfold Sys.run ops_negative
    rw [List.foldl_cons, List.foldl_cons, run_first_pair, List.foldl_append,
      run_rw_pairs [] 2147483646 1 (by omega) (by norm_num)]
    norm_num
  rw [h1]
  exact ⟨rfl, rfl, rfl, rfl⟩

/-- One open or close keeps the bounded invariant, one open more being allowed
for, as long as the counts cannot reach `INT_MAX`. -/
theorem sys_sound_step (N : Nat) (s : Sys) (k : Nat) (h : s.sound k)
    (hk : 2 * (k + 1) ≤ INT_MAX) (op : Op) : (s.step N op).sound (k + 1) := by
  have hI : INT_MAX = 2147483647 := rfl
  obtain ⟨⟨hs, hbits, hr, hw, hbuf⟩, hc, hb⟩ := h
  have hR0 : (0 : Int) ≤ ((s.handles.map rbit).sum : Nat) := Int.natCast_nonneg _
  have hW0 : (0 : Int) ≤ ((s.handles.map wbit).sum : Nat) := Int.natCast_nonneg _
  cases op with
  | opens m nonblock kmalloc sig =>
    unfold Sys.sound Sys.inv Sys.counted
    simp only [Sys.step]
    rcases scull_p_open_cases N s.dev hs (mkfile m nonblock) kmalloc sig with h | ⟨b, h⟩
    · rw [h]
      exact ⟨⟨hs, hbits, hr, hw, hbuf⟩, hc, by push_cast; omega⟩
    · rw [h]
      have hmb := mkfile_bits m nonblock
      refine ⟨⟨hs, ?_, ?_, ?_, ?_⟩, ?_, ?_⟩
      · intro x hx
        rcases List.mem_cons.mp hx with rfl | hx
        · exact mkfile_bits m nonblock
        · exact hbits x hx
      · simp only [List.map_cons, List.sum_cons, opened_dev, rbit, int_wrap] at hr ⊢
        split_ifs <;> omega
      · simp only [List.map_cons, List.sum_cons, opened_dev, wbit, int_wrap] at hw ⊢
        split_ifs <;> omega
      · intro _; simp [opened_dev]
      · intro _
        simp only [opened_dev, rbit, wbit, int_wrap] at hmb ⊢
        split_ifs at hmb ⊢ <;> omega
      · simp only [opened_dev, int_wrap]
        split_ifs <;> omega
  | close i =>
    unfold Sys.sound Sys.inv Sys.counted
    simp only [Sys.step]
    cases hi : s.handles[i]? with
    | none => exact ⟨⟨hs, hbits, hr, hw, hbuf⟩, hc, by push_cast; omega⟩
    | some x =>
      simp only [scull_p_release_eq s.dev hs x]
      have hR := sum_map_eraseIdx rbit s.handles i x hi
      have hW := sum_map_eraseIdx wbit s.handles i x hi
      have hxr : x.f_mode = FMODE_READ → rbit x = 1 := by
        intro hx; unfold rbit; rw [hx]; decide
      have hxw : x.f_mode = FMODE_WRITE → wbit x = 1 := by
        intro hx; unfold wbit; rw [hx]; decide
      refine ⟨⟨hs, fun y hy => hbits y (mem_of_mem_eraseIdx _ _ _ hy), ?_, ?_, ?_⟩, ?_, ?_⟩
      · simp only [released_dev, int_wrap]
        split_ifs with h1
        · have := hxr h1; omega
        · omega
      · simp only [released_dev, int_wrap]
        split_ifs with h1
        · have := hxw h1; omega
        · omega
      · simp only [released_dev, int_wrap]
        intro hpos
        split_ifs at hpos ⊢ <;> first | (apply hbuf; omega) | omega
      · simp only [released_dev, int_wrap]
        intro hne
        have hxr' : x.f_mode = FMODE_READ → 1 ≤ s.dev.nreaders := by
          intro hx; have := hxr hx; omega
        have hxw' : x.f_mode = FMODE_WRITE → 1 ≤ s.dev.nwriters := by
          intro hx; have := hxw hx; omega
        split_ifs at hne ⊢ with h1 h2 h3 <;>
          first
            | exact absurd rfl hne
            | (have hx1 := hxr' (by assumption); omega)
            | (have hx2 := hxw' (by assumption); omega)
            | omega
      · simp only [released_dev, int_wrap]
        split_ifs <;> omega

/-- The bounded invariant holds after every sequence of opens and closes from
the initial device that is too short for a count to reach `INT_MAX`. -/
theorem sys_sound_run (N : Nat) (ops : List Op) (hlen : 2 * ops.length ≤ INT_MAX) :
    (Sys.run N ops).sound ops.length := by
  have h : ∀ (ops : List Op) (s : Sys) (k : Nat), s.sound k →
      2 * (k + ops.length) ≤ INT_MAX → (ops.foldl (Sys.step N) s).sound (k + ops.length) := by
    intro ops
    induction ops with
    | nil => intro s k hs _; exact hs
    | cons op ops ih =>
      intro s k hs hk
      simp only [List.length_cons] at hk ⊢
      have h1 := ih _ (k + 1) (sys_sound_step N s k hs (by omega) op) (by omega)
      have e : k + 1 + ops.length = k + (ops.length + 1) := by omega
      rw [e] at h1
      exact h1
  have h0 : (Sys.mk scull_p_init []).sound 0 := by
    refine ⟨⟨by decide, ?_, by decide, by decide, ?_⟩, ?_, by decide⟩
    · intro x hx; simp at hx
    · intro hpos; simp [scull_p_init] at hpos
    · intro hb; exact absurd rfl hb
  have h2 := h ops _ 0 h0 (by omega)
  rw [Nat.zero_add] at h2
  exact h2

/-- Below the wrap, C10 holds: after a sequence of opens and closes from the
initial device that is too short for a count to reach `INT_MAX`, the buffer is
allocated if a handle is still open, and an open on an allocated buffer
succeeds on that same buffer whatever `kmalloc` would return. -/
theorem buffer_kept_below_wrap (N : Nat) (ops : List Op) (hlen : 2 * ops.length ≤ INT_MAX) :
    ((Sys.run N ops).handles ≠ [] → (Sys.run N ops).dev.buffer ≠ none) ∧
    (∀ (filp : file) (kmalloc : Option (List Nat)) (sig : Bool),
      (Sys.run N ops).dev.buffer ≠ none →
        (scull_p_open N (Sys.run N ops).dev filp kmalloc sig).1 = .ok () ∧
        (scull_p_open N (Sys.run N ops).dev filp kmalloc sig).2.buffer =
          (Sys.run N ops).dev.buffer ∧
        scull_p_open N (Sys.run N ops).dev filp kmalloc sig =
          scull_p_open N (Sys.run N ops).dev filp none sig) := by
  obtain ⟨⟨hs, hbits, hr, hw, hbuf⟩, -, -⟩ := sys_sound_run N ops hlen
  constructor
  · intro hne
    apply hbuf
    cases hl : (Sys.run N ops).handles with
    | nil => exact absurd hl hne
    | cons x l =>
      have hx := hbits x (by rw [hl]; exact List.mem_cons_self x l)
      rw [hl] at hr hw
      simp only [List.map_cons, List.sum_cons] at hr hw
      omega
  · intro filp kmalloc sig hb
    obtain ⟨b, hb'⟩ := Option.ne_none_iff_exists'.mp hb
    have h : ∀ km : Option (List Nat),
        (if (Sys.run N ops).dev.buffer = none then km else (Sys.run N ops).dev.buffer) = some b := by
      intro km; rw [hb']; simp
    rw [scull_p_open_some N _ hs filp b kmalloc sig (h _),
      scull_p_open_some N _ hs filp b none sig (h _), hb']
    simp [opened_dev]

/-- Below the wrap, C15 holds: after a sequence of opens and closes from the
initial device that is too short for a count to reach `INT_MAX`, the buffer is
allocated if and only if `nreaders + nwriters > 0`, and both counts are
non-negative. -/
theorem buffer_count_invariant_below_wrap (N : Nat) (ops : List Op)
    (hlen : 2 * ops.length ≤ INT_MAX) :
    ((Sys.run N ops).dev.buffer ≠ none ↔
      0 < (Sys.run N ops).dev.nreaders + (Sys.run N ops).dev.nwriters) ∧
    0 ≤ (Sys.run N ops).dev.nreaders ∧ 0 ≤ (Sys.run N ops).dev.nwriters := by
  obtain ⟨⟨-, -, hr, hw, hbuf⟩, hc, -⟩ := sys_sound_run N ops hlen
  exact ⟨⟨hc, hbuf⟩, by omega, by omega⟩

/-- C7 as stated fails while another call holds the semaphore: on the empty
capacity-4 pipe a read through a non-blocking handle sleeps in
`down_interruptible` (and returns `-ERESTARTSYS` when a signal is pending), and
so does a write through a non-blocking handle on the full pipe; neither returns
`-EAGAIN`. -/
theorem C7_counterexample :
    (mkfile .ReadOnly true).f_flags &&& O_NONBLOCK ≠ 0 ∧
    (mkfile .WriteOnly true).f_flags &&& O_NONBLOCK ≠ 0 ∧
    fresh4_held.rp = fresh4_held.wp ∧
    scull_p_read fresh4_held (mkfile .ReadOnly true) 3 3 false = (.sleeps, fresh4_held) ∧
    scull_p_read fresh4_held (mkfile .ReadOnly true) 3 3 true =
      (.err .ERESTARTSYS, fresh4_held) ∧
    spacefree fresh4_full_held = 0 ∧
    scull_p_write fresh4_full_held (mkfile .WriteOnly true) [100] 1 false =
      (.sleeps, fresh4_full_held) ∧
    scull_p_write fresh4_full_held (mkfile .WriteOnly true) [100] 1 true =
      (.err .ERESTARTSYS, fresh4_full_held) := by
  decide

/-- The second sentence of amended C3, in general: on a live device whose
buffer is empty, a write that returns 0 leaves the buffer empty, and the read
that follows returns `-EAGAIN` through a non-blocking handle, and through a
blocking handle returns `-ERESTARTSYS` with a signal pending and sleeps without
one; it never returns 0 bytes. -/
theorem write_zero_then_read (N : Nat) (hN : N ≤ INT_MAX) (dev : scull_pipe)
    (hl : live N dev) (he : dev.rp = dev.wp) (filp : file) (buf : List Nat) (count : Nat)
    (sig : Bool) (hw : (scull_p_write dev filp buf count sig).1 = .ok 0)
    (filp' : file) (ubuf max_count : Nat) (sig' : Bool) :
    (scull_p_write dev filp buf count sig).2.rp = (scull_p_write dev filp buf count sig).2.wp ∧
    (scull_p_read (scull_p_write dev filp buf count sig).2 filp' ubuf max_count sig').1 =
      (if filp'.f_flags &&& O_NONBLOCK ≠ 0 then .err .EAGAIN
       else if sig' then .err .ERESTARTSYS else .sleeps) := by
  have hl1 := (write_inv N hN dev hl filp buf count sig).1
  obtain ⟨b, hb, hbl, hkw, hkb, h0, hdev⟩ := write_ok N hN dev hl filp buf count sig 0 hw
  obtain ⟨-, -, -, hr, hwp, -⟩ := hl
  have hwp' : ¬ dev.wp + 0 = N := by omega
  have e : (scull_p_write dev filp buf count sig).2.rp =
      (scull_p_write dev filp buf count sig).2.wp := by
    rw [hdev]; simp only [if_neg hwp']; exact he
  refine ⟨e, ?_⟩
  rw [scull_p_read_live N hN _ hl1, if_pos e]
  split_ifs <;> rfl

/-- C19 (progress of a transfer).  On a live device of capacity `N`: a read
with `max_count >= 1` on a non-empty buffer whose copy to user space is complete
(`copy_to_user` leaves no byte) returns a count of at least 1; a write with
`count >= 1` when `spacefree > 0` whose copy from user space is complete
(`copy_from_user` leaves no byte) returns a count of at least 1 and leaves
`rp != wp`; and a read or write that returns 0 was asked for 0 bytes.  The
copies are complete in particular when the user buffer has `max_count` writable
bytes, respectively `count` readable bytes. -/
theorem C19_progress (N : Nat) (hN : N ≤ INT_MAX) (dev : scull_pipe) (hl : live N dev) :
    (∀ (filp : file) (ubuf max_count : Nat) (sig : Bool),
      dev.rp ≠ dev.wp → 1 ≤ max_count →
      (copy_to_user ubuf ((dev.buffer.getD []).drop dev.rp) (rlen N dev max_count)).2 = 0 →
        ∃ (k : Nat) (data : List Nat),
          (scull_p_read dev filp ubuf max_count sig).1 = .ok (k, data) ∧ 1 ≤ k) ∧
    (∀ (filp : file) (buf : List Nat) (count : Nat) (sig : Bool),
      0 < spacefree dev → 1 ≤ count →
      (copy_from_user (dev.buffer.getD []) dev.wp buf (wlen N dev count)).2 = 0 →
        ∃ k : Nat, (scull_p_write dev filp buf count sig).1 = .ok k ∧ 1 ≤ k ∧
          (scull_p_write dev filp buf count sig).2.rp ≠
            (scull_p_write dev filp buf count sig).2.wp) ∧
    (∀ (filp : file) (ubuf max_count : Nat) (sig : Bool) (data : List Nat),
      (scull_p_read dev filp ubuf max_count sig).1 = .ok (0, data) → max_count = 0) ∧
    (∀ (filp : file) (buf : List Nat) (count : Nat) (sig : Bool),
      (scull_p_write dev filp buf count sig).1 = .ok 0 → count = 0) ∧
    (∀ (ubuf max_count : Nat), max_count ≤ ubuf →
      (copy_to_user ubuf ((dev.buffer.getD []).drop dev.rp) (rlen N dev max_count)).2 = 0) ∧
    (∀ (buf : List Nat) (count : Nat), count ≤ buf.length →
      (copy_from_user (dev.buffer.getD []) dev.wp buf (wlen N dev count)).2 = 0) := by
  have hsfl := spacefree_live N dev hl
  have hl' := hl
  obtain ⟨-, -, -, hr, hw, -⟩ := hl'
  have hrl : ∀ mc, dev.rp ≠ dev.wp → 1 ≤ mc → 1 ≤ rlen N dev mc := by
    intro mc hne hmc; unfold rlen; split_ifs <;> omega
  have hwl : ∀ c, sfree N dev ≠ 0 → 1 ≤ c → 1 ≤ wlen N dev c := by
    intro c h0 hc; unfold wlen; unfold sfree at h0 ⊢; split_ifs at h0 ⊢ <;> omega
  refine ⟨?_, ?_, ?_, ?_, ?_, ?_⟩
  · intro filp ubuf mc sig hne hmc hnf
    have hf : ¬ ubuf < rlen N dev mc := by
      simp only [copy_to_user] at hnf; omega
    rw [scull_p_read_live N hN dev hl, if_neg hne, if_neg hf]
    exact ⟨_, _, rfl, hrl mc hne hmc⟩
  · intro filp buf count sig hsf hc hnf
    have h0 : ¬ sfree N dev = 0 := by rw [hsfl] at hsf; omega
    have hf : ¬ buf.length < wlen N dev count := by
      simp only [copy_from_user] at hnf; omega
    rw [scull_p_write_live N hN dev hl, if_neg h0, if_neg hf]
    refine ⟨_, rfl, hwl count h0 hc, ?_⟩
    have h1 := hwl count h0 hc
    obtain ⟨hk1, hk2, -⟩ := wlen_le N dev count
    simp only
    unfold sfree at hk1
    split_ifs at hk1 hk2 ⊢ <;> omega
  · intro filp ubuf mc sig data h
    rw [scull_p_read_live N hN dev hl] at h
    by_cases hne : dev.rp = dev.wp
    · rw [if_pos hne] at h; split_ifs at h
    · rw [if_neg hne] at h
      by_cases hf : ubuf < rlen N dev mc
      · rw [if_pos hf] at h; simp at h
      · rw [if_neg hf] at h
        have h3 : rlen N dev mc = 0 := by simpa using congrArg (fun r => match r with | Ret.ok (k, _) => k | _ => 1) h
        by_contra hmc
        have := hrl mc hne (by omega)
        omega
  · intro filp buf count sig h
    rw [scull_p_write_live N hN dev hl] at h
    by_cases h0 : sfree N dev = 0
    · rw [if_pos h0] at h; split_ifs at h
    · rw [if_neg h0] at h
      by_cases hf : buf.length < wlen N dev count
      · rw [if_pos hf] at h; simp at h
      · rw [if_neg hf] at h
        have h3 : wlen N dev count = 0 := by simpa using h
        by_contra hc
        have := hwl count h0 (by omega)
        omega
  · intro ubuf mc hle
    have : rlen N dev mc ≤ mc := by unfold rlen; split_ifs <;> omega
    simp only [copy_to_user]; omega
  · intro buf count hle
    obtain ⟨-, -, hk3⟩ := wlen_le N dev count
    simp only [copy_from_user]; omega

/-- C19 on the capacity-4 pipe holding "ab": a `read(3)` into three writable
bytes returns a count of at least 1, and a write of one byte returns a count of
at least 1 and leaves `rp != wp`. -/
theorem C19_progress_witness :
    4 ≤ INT_MAX ∧ live 4 fresh4_ab ∧ fresh4_ab.rp ≠ fresh4_ab.wp ∧
    (copy_to_user 3 ((fresh4_ab.buffer.getD []).drop fresh4_ab.rp) (rlen 4 fresh4_ab 3)).2 = 0 ∧
    (∃ (k : Nat) (data : List Nat),
      (scull_p_read fresh4_ab (mkfile .ReadOnly false) 3 3 false).1 = .ok (k, data) ∧ 1 ≤ k) ∧
    0 < spacefree fresh4_ab ∧
    (copy_from_user (fresh4_ab.buffer.getD []) fresh4_ab.wp [99] (wlen 4 fresh4_ab 1)).2 = 0 ∧
    (∃ k : Nat, (scull_p_write fresh4_ab (mkfile .WriteOnly false) [99] 1 false).1 = .ok k ∧
      1 ≤ k ∧
      (scull_p_write fresh4_ab (mkfile .WriteOnly false) [99] 1 false).2.rp ≠
        (scull_p_write fresh4_ab (mkfile .WriteOnly false) [99] 1 false).2.wp) :=
  ⟨by decide, by decide, by decide, by decide,
    (C19_progress 4 (by decide) fresh4_ab (by decide)).1 (mkfile .ReadOnly false) 3 3 false
      (by decide) (by decide) (by decide),
    by decide, by decide,
    (C19_progress 4 (by decide) fresh4_ab (by decide)).2.1 (mkfile .WriteOnly false) [99] 1 false
      (by decide) (by decide) (by decide)⟩

end Scull
